import Mathlib

/-!
Verification development for the mining-robot decision engine
(`src/main.rs`).  The Rust program is shallowly embedded: each Rust
function becomes a Lean definition of the same name, machine integers
become `Int`/`Nat` (coordinates fit comfortably inside `i32`/`usize`
for the game's grid sizes, so wrap-around is never load-bearing),
fallible code (a Rust `panic!`/`unwrap`/`unreachable!`) is modelled by
`Option`, `none` meaning the process aborts, and the two calls to
`thread_rng().gen_range` are modelled by injected parameters carrying
the drawn values (the spec itself requires randomness to be
injectable for deterministic testing).
-/

namespace Geek

/-- Compute the Manhattan distance between two points
(Rust `manh_dist`, `(a[0] - b[0]).abs() + (a[1] - b[1]).abs()`). -/
def manh_dist (a b : Int × Int) : Int :=
  ((a.1 - b.1).natAbs : Int) + ((a.2 - b.2).natAbs : Int)

/-- Entity types (Rust `enum EntityType`). -/
inductive EntityType where
  | Miner
  | OpponentMiner
  | BurriedRadar
  | BurriedTrap
deriving DecidableEq

/-- Decoding of an entity type code (Rust `impl TryFrom<u32> for EntityType`). -/
def EntityType.try_from (value : Nat) : Except String EntityType :=
  match value with
  | 0 => Except.ok EntityType.Miner
  | 1 => Except.ok EntityType.OpponentMiner
  | 2 => Except.ok EntityType.BurriedRadar
  | 3 => Except.ok EntityType.BurriedTrap
  | _ => Except.error "unknown entity type"

/-- Registered entity (Rust `enum Entity`); miner variants carry an index
into the corresponding miner list. -/
inductive Entity where
  | Miner (index : Nat)
  | OpponentMiner (index : Nat)
  | BurriedRadar
  | BurriedTrap
deriving DecidableEq

/-- Items a miner can hold (Rust `enum Item`). -/
inductive Item where
  | Radar
  | Trap
  | Ore
deriving DecidableEq

/-- Decoding of an item code (Rust `impl TryFrom<i32> for Item`). -/
def Item.try_from (value : Int) : Except String Item :=
  match value with
  | 2 => Except.ok Item.Radar
  | 3 => Except.ok Item.Trap
  | 4 => Except.ok Item.Ore
  | _ => Except.error "unknown item"

/-- Items a miner can request (Rust `enum RequestItem`). -/
inductive RequestItem where
  | Radar
  | Trap
deriving DecidableEq

/-- An action emitted for one robot (Rust `enum Request`). -/
inductive Request where
  | Move (x y : Int)
  | Wait
  | Dig (x y : Int)
  | Item (item : RequestItem)
deriving DecidableEq

/-- Move back to the home column, keeping the given row
(Rust `Request::back_to_hq`). -/
def Request.back_to_hq (position : Int × Int) : Request :=
  Request.Move 0 position.2

/-- One grid cell (Rust `struct Cell`). -/
structure Cell where
  ore_amount : Option Nat
  has_hole : Bool
deriving DecidableEq

/-- Rust `impl Default for Cell`: unknown ore, no hole. -/
def Cell.default : Cell :=
  { ore_amount := none, has_hole := false }

/-- A robot's current multi-turn intention (Rust `enum Order`). -/
inductive Order where
  | GoTo (x y : Int)
  | DigAt (x y : Int)
  | DeployRadarAt (x y : Int)
  | Deliver (x y : Int)
deriving DecidableEq

/-- Rust `Order::go_to_random`: a `GoTo` whose destination is drawn by
`rng.gen_range(1, width)` and `rng.gen_range(0, height)`; the drawn pair is
the injected parameter `rnd`. -/
def Order.go_to_random (rnd : Int × Int) : Order :=
  Order.GoTo rnd.1 rnd.2

/-- Rust `Order::deploy_radar_to_random`: as `go_to_random` but producing
a `DeployRadarAt`. -/
def Order.deploy_radar_to_random (rnd : Int × Int) : Order :=
  Order.DeployRadarAt rnd.1 rnd.2

/-- Rust `Order::destination`. -/
def Order.destination : Order → Int × Int
  | Order.GoTo x y => (x, y)
  | Order.DigAt x y => (x, y)
  | Order.DeployRadarAt x y => (x, y)
  | Order.Deliver x y => (x, y)

/-- Rust `Order::is_digging_order`. -/
def Order.is_digging_order : Order → Bool
  | Order.DigAt _ _ => true
  | _ => false

/-- Whether an order is the radar-mission variant `DeployRadarAt`. -/
def Order.isDeployRadar : Order → Bool
  | Order.DeployRadarAt _ _ => true
  | _ => false

/-- A robot (Rust `struct Miner`). -/
structure Miner where
  x : Int
  y : Int
  item : Option Item
  uid : Nat
  alive : Bool
  order : Order
deriving DecidableEq

/-!
Association lists stand in for the `HashMap`s of the Rust code; only
`insert`, `get` and `contains_key` are used by the program.
-/

/-- Lookup in an association list (Rust `HashMap::get`). -/
def assocGet {β : Type} : List (Nat × β) → Nat → Option β
  | [], _ => none
  | (k, v) :: rest, key => if k = key then some v else assocGet rest key

/-- Insert-or-replace in an association list (Rust `HashMap::insert`). -/
def assocInsert {β : Type} : List (Nat × β) → Nat → β → List (Nat × β)
  | [], key, v => [(key, v)]
  | (k, v') :: rest, key, v =>
      if k = key then (key, v) :: rest else (k, v') :: assocInsert rest key v

/-- The full game state (Rust `struct GameState`). -/
structure GameState where
  width : Nat
  height : Nat
  my_score : Nat
  opponent_score : Nat
  cells : List Cell
  miners : List Miner
  opponent_miners : List Miner
  entities : List (Nat × Entity)
  burried_radars : List (Nat × (Int × Int))
  burried_traps : List (Nat × (Int × Int))
  radar_cooldown : Nat
  trap_cooldown : Nat
  miner_with_radar : Option Nat
deriving DecidableEq

/-- Rust `GameState::new`. -/
def GameState.new (width height : Nat) : GameState :=
  { width := width
    height := height
    my_score := 0
    opponent_score := 0
    cells := List.replicate (width * height) Cell.default
    miners := []
    opponent_miners := []
    entities := []
    burried_radars := []
    burried_traps := []
    radar_cooldown := 0
    trap_cooldown := 0
    miner_with_radar := none }

/-- Modify the cell at a flat index, leaving the list unchanged when the
index is out of range (the Rust code only ever indexes in range). -/
def modifyCell : List Cell → Nat → (Cell → Cell) → List Cell
  | [], _, _ => []
  | c :: cs, 0, f => f c :: cs
  | c :: cs, Nat.succ n, f => c :: modifyCell cs n f

/-- Modify the miner at an index, leaving the list unchanged when the
index is out of range (the Rust code only ever indexes in range). -/
def modifyMiner : List Miner → Nat → (Miner → Miner) → List Miner
  | [], _, _ => []
  | m :: ms, 0, f => f m :: ms
  | m :: ms, Nat.succ n, f => m :: modifyMiner ms n f

/-- Rust `GameState::set_my_score`. -/
def GameState.set_my_score (s : GameState) (score : Nat) : GameState :=
  { s with my_score := score }

/-- Rust `GameState::set_opponent_score`. -/
def GameState.set_opponent_score (s : GameState) (score : Nat) : GameState :=
  { s with opponent_score := score }

/-- Rust `GameState::set_ore`: `self.cells[y * self.width + x].ore_amount = ore_amount`. -/
def GameState.set_ore (s : GameState) (x y : Nat) (ore_amount : Option Nat) : GameState :=
  { s with cells := modifyCell s.cells (y * s.width + x) (fun c => { c with ore_amount := ore_amount }) }

/-- Rust `GameState::set_hole`: `self.cells[y * self.width + x].has_hole = hole`. -/
def GameState.set_hole (s : GameState) (x y : Nat) (hole : Bool) : GameState :=
  { s with cells := modifyCell s.cells (y * s.width + x) (fun c => { c with has_hole := hole }) }

/-- Rust `GameState::set_radar_cooldown`. -/
def GameState.set_radar_cooldown (s : GameState) (cooldown : Nat) : GameState :=
  { s with radar_cooldown := cooldown }

/-- Rust `GameState::set_trap_cooldown`. -/
def GameState.set_trap_cooldown (s : GameState) (cooldown : Nat) : GameState :=
  { s with trap_cooldown := cooldown }

/-- Rust `GameState::add_entity`. -/
def GameState.add_entity (s : GameState) (uid : Nat) (entity : Entity) : GameState :=
  { s with entities := assocInsert s.entities uid entity }

/-- Rust `GameState::entity_exists`. -/
def GameState.entity_exists (s : GameState) (uid : Nat) : Bool :=
  (assocGet s.entities uid).isSome

/-- Rust `GameState::add_miner`; returns the new state and the index of
the pushed miner. -/
def GameState.add_miner (s : GameState) (miner : Miner) : GameState × Nat :=
  ({ s with miners := s.miners ++ [miner] }, s.miners.length)

/-- Rust `GameState::add_opponent_miner`. -/
def GameState.add_opponent_miner (s : GameState) (miner : Miner) : GameState × Nat :=
  ({ s with opponent_miners := s.opponent_miners ++ [miner] }, s.opponent_miners.length)

/-- Rust `GameState::update_position` (the "not a miner" arm only logs). -/
def GameState.update_position (s : GameState) (uid : Nat) (px py : Int) : GameState :=
  match assocGet s.entities uid with
  | some (Entity.Miner index) =>
      { s with miners := modifyMiner s.miners index (fun m => { m with x := px, y := py }) }
  | some (Entity.OpponentMiner index) =>
      { s with opponent_miners := modifyMiner s.opponent_miners index (fun m => { m with x := px, y := py }) }
  | _ => s

/-- Rust `GameState::update_item` (the "not a miner" arm only logs). -/
def GameState.update_item (s : GameState) (uid : Nat) (item : Option Item) : GameState :=
  match assocGet s.entities uid with
  | some (Entity.Miner index) =>
      { s with miners := modifyMiner s.miners index (fun m => { m with item := item }) }
  | some (Entity.OpponentMiner index) =>
      { s with opponent_miners := modifyMiner s.opponent_miners index (fun m => { m with item := item }) }
  | _ => s

/-- Rust `GameState::kill` (the "not a miner" arm only logs). -/
def GameState.kill (s : GameState) (uid : Nat) : GameState :=
  match assocGet s.entities uid with
  | some (Entity.Miner index) =>
      { s with miners := modifyMiner s.miners index (fun m => { m with alive := false }) }
  | some (Entity.OpponentMiner index) =>
      { s with opponent_miners := modifyMiner s.opponent_miners index (fun m => { m with alive := false }) }
  | _ => s

/-- Rust `GameState::burry_radar`. -/
def GameState.burry_radar (s : GameState) (uid : Nat) (x y : Int) : GameState :=
  { s with burried_radars := assocInsert s.burried_radars uid (x, y) }

/-- Rust `GameState::burry_trap`. -/
def GameState.burry_trap (s : GameState) (uid : Nat) (x y : Int) : GameState :=
  { s with burried_traps := assocInsert s.burried_traps uid (x, y) }

/-- Rust `GameState::update_radar_position` (missing id only logs). -/
def GameState.update_radar_position (s : GameState) (uid : Nat) (x y : Int) : GameState :=
  match assocGet s.burried_radars uid with
  | some _ => { s with burried_radars := assocInsert s.burried_radars uid (x, y) }
  | none => s

/-- Rust `GameState::update_trap_position` (missing id only logs). -/
def GameState.update_trap_position (s : GameState) (uid : Nat) (x y : Int) : GameState :=
  match assocGet s.burried_traps uid with
  | some _ => { s with burried_traps := assocInsert s.burried_traps uid (x, y) }
  | none => s

/-- Rust `GameState::cell`: `self.cells.get(y as usize * self.width + x as usize)`.
A negative coordinate yields `none` (in Rust the `usize` cast of a negative
coordinate produces a huge index, out of range for every grid the game
sends). -/
def GameState.cell (s : GameState) (x y : Int) : Option Cell :=
  if x < 0 ∨ y < 0 then none
  else s.cells.get? (y.toNat * s.width + x.toNat)

/-!
Both search loops of the program — the radar-carrier selection in
`assign_radar` and the nearest-ore scan in `choose_order` — have the same
shape: walk a list keeping the current best candidate, replacing it only
when the new key is strictly smaller, so that the first element attaining
the minimum is kept.  `selectMin` captures that accumulator loop.
-/

/-- The first-strict-minimum accumulator loop shared by `assign_radar`
and `choose_order`. -/
def selectMin {α : Type} (key : α → Int) : Option α → List α → Option α
  | acc, [] => acc
  | acc, x :: xs =>
      selectMin key
        (match acc with
         | none => some x
         | some b => if key x < key b then some x else some b)
        xs

/-- Merge two optional candidates, preferring the first on ties. -/
def mergeMin {α : Type} (key : α → Int) : Option α → Option α → Option α
  | none, r => r
  | some b, none => some b
  | some b, some c => if key c < key b then some c else some b

theorem mergeMin_none_right {α : Type} (key : α → Int) (a : Option α) :
    mergeMin key a none = a := by
  cases a <;> rfl

theorem mergeMin_assoc {α : Type} (key : α → Int) (a b c : Option α) :
    mergeMin key (mergeMin key a b) c = mergeMin key a (mergeMin key b c) := by
  cases a with
  | none => rfl
  | some a0 =>
      cases b with
      | none => rfl
      | some b0 =>
          cases c with
          | none => rw [mergeMin_none_right, mergeMin_none_right]
          | some c0 =>
              show mergeMin key (if key b0 < key a0 then some b0 else some a0) (some c0)
                  = mergeMin key (some a0) (if key c0 < key b0 then some c0 else some b0)
              by_cases h2 : key b0 < key a0
              · rw [if_pos h2]
                by_cases h1 : key c0 < key b0
                · rw [if_pos h1]
                  show (if key c0 < key b0 then some c0 else some b0)
                      = (if key c0 < key a0 then some c0 else some a0)
                  rw [if_pos h1, if_pos (lt_trans h1 h2)]
                · rw [if_neg h1]
                  show (if key c0 < key b0 then some c0 else some b0)
                      = (if key b0 < key a0 then some b0 else some a0)
                  rw [if_neg h1, if_pos h2]
              · rw [if_neg h2]
                by_cases h1 : key c0 < key b0
                · rw [if_pos h1]
                · rw [if_neg h1]
                  show (if key c0 < key a0 then some c0 else some a0)
                      = (if key b0 < key a0 then some b0 else some a0)
                  rw [if_neg (by omega), if_neg h2]

theorem selectMin_acc {α : Type} (key : α → Int) (xs : List α) :
    ∀ acc, selectMin key acc xs = mergeMin key acc (selectMin key none xs) := by
  induction xs with
  | nil => intro acc; cases acc <;> rfl
  | cons x xs ih =>
      intro acc
      have hstep :
          (match acc with
           | none => some x
           | some b => if key x < key b then some x else some b)
            = mergeMin key acc (some x) := by
        cases acc <;> simp [mergeMin]
      calc selectMin key acc (x :: xs)
          = selectMin key (mergeMin key acc (some x)) xs := by
            simp only [selectMin, hstep]
        _ = mergeMin key (mergeMin key acc (some x)) (selectMin key none xs) := ih _
        _ = mergeMin key acc (mergeMin key (some x) (selectMin key none xs)) :=
            mergeMin_assoc key _ _ _
        _ = mergeMin key acc (selectMin key none (x :: xs)) := by
            rw [show selectMin key none (x :: xs) = selectMin key (some x) xs from rfl,
                ih (some x)]

theorem selectMin_cons {α : Type} (key : α → Int) (x : α) (xs : List α) :
    selectMin key none (x :: xs) = mergeMin key (some x) (selectMin key none xs) := by
  rw [show selectMin key none (x :: xs) = selectMin key (some x) xs from rfl,
      selectMin_acc]

theorem selectMin_eq_none_iff {α : Type} (key : α → Int) (xs : List α) :
    selectMin key none xs = none ↔ xs = [] := by
  cases xs with
  | nil => simp [selectMin]
  | cons x xs =>
      rw [selectMin_cons]
      constructor
      · intro h
        exfalso
        cases hr : selectMin key none xs with
        | none => rw [hr] at h; exact Option.noConfusion h
        | some c =>
            rw [hr] at h
            simp only [mergeMin] at h
            split_ifs at h <;> exact Option.noConfusion h
      · intro h; exact absurd h (List.cons_ne_nil x xs)

/-- A successful `selectMin` run splits its input list around the winner:
every earlier element has a strictly larger key (so the first minimum
wins ties) and every later element has a key at least as large. -/
theorem selectMin_spec {α : Type} (key : α → Int) (xs : List α) (b : α)
    (h : selectMin key none xs = some b) :
    ∃ l1 l2, xs = l1 ++ b :: l2 ∧
      (∀ a ∈ l1, key b < key a) ∧ (∀ a ∈ l2, key b ≤ key a) := by
  induction xs generalizing b with
  | nil => cases h
  | cons x xs ih =>
      rw [selectMin_cons] at h
      cases hr : selectMin key none xs with
      | none =>
          have hnil : xs = [] := (selectMin_eq_none_iff key xs).mp hr
          rw [hr] at h
          simp only [mergeMin] at h
          cases h
          exact ⟨[], [], by simp [hnil], by simp, by simp [hnil]⟩
      | some c =>
          rw [hr] at h
          simp only [mergeMin] at h
          obtain ⟨l1, l2, hsplit, hl1, hl2⟩ := ih c hr
          by_cases hlt : key c < key x
          · rw [if_pos hlt] at h
            cases h
            refine ⟨x :: l1, l2, by simp [hsplit], ?_, hl2⟩
            intro a ha
            rcases List.mem_cons.mp ha with ha | ha
            · subst ha; exact hlt
            · exact hl1 a ha
          · rw [if_neg hlt] at h
            cases h
            push_neg at hlt
            refine ⟨[], xs, rfl, by simp, ?_⟩
            intro a ha
            rw [hsplit] at ha
            rcases List.mem_append.mp ha with ha | ha
            · exact le_trans hlt (le_of_lt (hl1 a ha))
            · rcases List.mem_cons.mp ha with ha | ha
              · subst ha; exact hlt
              · exact le_trans hlt (hl2 a ha)

/-- Membership of the winner in the scanned list. -/
theorem selectMin_mem {α : Type} (key : α → Int) (xs : List α) (b : α)
    (h : selectMin key none xs = some b) : b ∈ xs := by
  obtain ⟨l1, l2, hsplit, -, -⟩ := selectMin_spec key xs b h
  rw [hsplit]; exact List.mem_append.mpr (Or.inr (List.mem_cons_self _ _))

/-- The winner's key is minimal over the whole list. -/
theorem selectMin_min {α : Type} (key : α → Int) (xs : List α) (b : α)
    (h : selectMin key none xs = some b) : ∀ a ∈ xs, key b ≤ key a := by
  obtain ⟨l1, l2, hsplit, hl1, hl2⟩ := selectMin_spec key xs b h
  intro a ha
  rw [hsplit] at ha
  rcases List.mem_append.mp ha with ha | ha
  · exact le_of_lt (hl1 a ha)
  · rcases List.mem_cons.mp ha with ha | ha
    · subst ha; exact le_refl _
    · exact hl2 a ha

/-!
The radar-carrier selection (`GameState::assign_radar`).  The Rust loop
enumerates `self.miners()` with indices and keeps the first miner whose
vertical distance to `height / 2` is strictly smaller than the best so
far; `found.unwrap()` panics when the miner list is empty.
-/

/-- Pair each list element with its index, starting at `k`
(the `enumerate()` of the Rust loop). -/
def enumIdx {α : Type} : Nat → List α → List (Nat × α)
  | _, [] => []
  | k, a :: as => (k, a) :: enumIdx (k + 1) as

theorem enumIdx_get? {α : Type} (l : List α) :
    ∀ (k p : Nat), (enumIdx k l).get? p = (l.get? p).map (fun a => (k + p, a)) := by
  induction l with
  | nil => intro k p; cases p <;> rfl
  | cons a as ih =>
      intro k p
      cases p with
      | zero => rfl
      | succ q =>
          show (enumIdx (k + 1) as).get? q = (as.get? q).map (fun a => (k + (q + 1), a))
          rw [ih (k + 1) q]
          cases h : as.get? q with
          | none => rfl
          | some v =>
              simp only [Option.map]
              have hk : k + 1 + q = k + (q + 1) := by omega
              rw [hk]

theorem enumIdx_length {α : Type} (l : List α) :
    ∀ k, (enumIdx k l).length = l.length := by
  induction l with
  | nil => intro k; rfl
  | cons a as ih => intro k; simpa [enumIdx] using ih (k + 1)

theorem mem_enumIdx {α : Type} (l : List α) :
    ∀ (k : Nat) (p : Nat × α), p ∈ enumIdx k l →
      k ≤ p.1 ∧ l.get? (p.1 - k) = some p.2 := by
  induction l with
  | nil => intro k p hp; cases hp
  | cons a as ih =>
      intro k p hp
      rcases List.mem_cons.mp hp with hp | hp
      · subst hp; exact ⟨le_refl _, by simp⟩
      · obtain ⟨hk, hget⟩ := ih (k + 1) p hp
        refine ⟨le_trans (Nat.le_succ k) hk, ?_⟩
        have : p.1 - k = (p.1 - (k + 1)) + 1 := by omega
        rw [this]
        simpa using hget

theorem enumIdx_get?_mem {α : Type} (l : List α) :
    ∀ (k j : Nat) (a : α), l.get? j = some a → (k + j, a) ∈ enumIdx k l := by
  induction l with
  | nil => intro k j a h; cases h
  | cons x xs ih =>
      intro k j a h
      cases j with
      | zero =>
          cases h
          exact List.mem_cons_self _ _
      | succ q =>
          have := ih (k + 1) q a h
          rw [show k + (q + 1) = (k + 1) + q by omega]
          exact List.mem_cons_of_mem _ this

/-- The selection key of `assign_radar`: the vertical distance of a miner
to `height / 2` (Rust `(miner.y - middle as i32).abs()`). -/
def middleDist (middle : Nat) (m : Miner) : Int :=
  ((m.y - (middle : Int)).natAbs : Int)

/-- The search loop of `assign_radar`: enumerate all miners (alive or
not) and keep the first one minimising `middleDist`. -/
def findRadarMiner (middle : Nat) (ms : List Miner) : Option (Nat × Int) :=
  (selectMin (fun p => middleDist middle p.2) none (enumIdx 0 ms)).map
    (fun p => (p.1, middleDist middle p.2))

/-- Rust `GameState::assign_radar`.  `none` models the `found.unwrap()`
panic on an empty miner list; `rnd` is the pair drawn by
`deploy_radar_to_random` (`gen_range(1, width)`, `gen_range(0, height)`). -/
def GameState.assign_radar (s : GameState) (rnd : Int × Int) : Option GameState :=
  match findRadarMiner (s.height / 2) s.miners with
  | none => none
  | some (index, _) =>
      some { s with
              miner_with_radar := some index
              miners := modifyMiner s.miners index
                (fun m => { m with order := Order.deploy_radar_to_random rnd }) }

/-!
The nearest-ore scan (`GameState::choose_order`).  The Rust loop runs
`for x in 0..width { for y in 0..height { ... } }` — x outer, y inner —
looks up every cell with `.unwrap()`, considers cells whose ore amount
is known and strictly positive, and keeps the first candidate whose
Manhattan distance to the miner is strictly smaller than the best so
far.
-/

/-- Scan order of `choose_order`: x is the outer loop, y the inner one
(column-major). -/
def colPairs (w h : Nat) : List (Nat × Nat) :=
  (List.range w).bind (fun x => (List.range h).map (fun y => (x, y)))

theorem mem_colPairs (w h : Nat) (p : Nat × Nat) :
    p ∈ colPairs w h ↔ p.1 < w ∧ p.2 < h := by
  cases p with
  | mk x y =>
      simp only [colPairs, List.mem_bind, List.mem_map, List.mem_range]
      constructor
      · rintro ⟨x', hx', y', hy', heq⟩
        cases heq; exact ⟨hx', hy'⟩
      · rintro ⟨hx, hy⟩
        exact ⟨x, hx, y, hy, rfl⟩

/-- The candidate a scanned position contributes: its coordinates and ore
amount when the cell's ore is known and strictly positive. -/
def candOf (s : GameState) (p : Nat × Nat) : Option (Int × Int × Nat) :=
  match s.cell (p.1 : Int) (p.2 : Int) with
  | some c =>
      match c.ore_amount with
      | some n => if 0 < n then some ((p.1 : Int), (p.2 : Int), n) else none
      | none => none
  | none => none

/-- All positive-ore candidates in scan order. -/
def candAll (s : GameState) (ps : List (Nat × Nat)) : List (Int × Int × Nat) :=
  ps.filterMap (candOf s)

/-- The key minimised by the `choose_order` scan: Manhattan distance of
the candidate to the miner. -/
def oreKey (mpos : Int × Int) (t : Int × Int × Nat) : Int :=
  manh_dist (t.1, t.2.1) mpos

/-- The scan loop of `choose_order`, with the `closest_cell` accumulator;
the outer `Option` is `none` when a cell lookup `.unwrap()` would panic. -/
def scanOre (s : GameState) (mpos : Int × Int) :
    List (Nat × Nat) → Option (Int × Int × Nat) → Option (Option (Int × Int × Nat))
  | [], acc => some acc
  | p :: ps, acc =>
      match s.cell (p.1 : Int) (p.2 : Int) with
      | none => none
      | some c =>
          match c.ore_amount with
          | some n =>
              if 0 < n then
                scanOre s mpos ps
                  (match acc with
                   | none => some ((p.1 : Int), (p.2 : Int), n)
                   | some b =>
                       if manh_dist ((p.1 : Int), (p.2 : Int)) mpos
                            < manh_dist (b.1, b.2.1) mpos
                       then some ((p.1 : Int), (p.2 : Int), n) else some b)
              else scanOre s mpos ps acc
          | none => scanOre s mpos ps acc

/-- Rust `GameState::choose_order`: nearest known positive-ore cell as a
`DigAt`, else `go_to_random`.  `none` models an out-of-range miner index
or a failing cell lookup (both panics in Rust); `rnd` is the pair a
`go_to_random` fallback would draw. -/
def GameState.choose_order (s : GameState) (miner_index : Nat) (rnd : Int × Int) :
    Option Order :=
  match s.miners.get? miner_index with
  | none => none
  | some miner =>
      match scanOre s (miner.x, miner.y) (colPairs s.width s.height) none with
      | none => none
      | some (some t) => some (Order.DigAt t.1 t.2.1)
      | some none => some (Order.go_to_random rnd)

/-- When every scanned cell lookup succeeds, the scan loop is the
first-minimum selection over the candidate list. -/
theorem scanOre_eq_selectMin (s : GameState) (mpos : Int × Int) (ps : List (Nat × Nat)) :
    ∀ acc, (∀ p ∈ ps, (s.cell (p.1 : Int) (p.2 : Int)).isSome) →
      scanOre s mpos ps acc = some (selectMin (oreKey mpos) acc (candAll s ps)) := by
  induction ps with
  | nil => intro acc _; rfl
  | cons p ps ih =>
      intro acc hcells
      have hp : (s.cell (p.1 : Int) (p.2 : Int)).isSome :=
        hcells p (List.mem_cons_self _ _)
      have hrest : ∀ q ∈ ps, (s.cell (q.1 : Int) (q.2 : Int)).isSome :=
        fun q hq => hcells q (List.mem_cons_of_mem _ hq)
      cases hc : s.cell (p.1 : Int) (p.2 : Int) with
      | none => rw [hc] at hp; cases hp
      | some c =>
          cases ho : c.ore_amount with
          | none =>
              have h1 : scanOre s mpos (p :: ps) acc = scanOre s mpos ps acc := by
                simp only [scanOre, hc, ho]
              have h2 : candAll s (p :: ps) = candAll s ps := by
                simp only [candAll, List.filterMap_cons, candOf, hc, ho]
              rw [h1, h2, ih acc hrest]
          | some n =>
              by_cases hn : 0 < n
              · have h1 : scanOre s mpos (p :: ps) acc
                    = scanOre s mpos ps
                        (match acc with
                         | none => some ((p.1 : Int), (p.2 : Int), n)
                         | some b =>
                             if manh_dist ((p.1 : Int), (p.2 : Int)) mpos
                                  < manh_dist (b.1, b.2.1) mpos
                             then some ((p.1 : Int), (p.2 : Int), n) else some b) := by
                  simp only [scanOre, hc, ho, if_pos hn]
                have h2 : candAll s (p :: ps)
                    = ((p.1 : Int), (p.2 : Int), n) :: candAll s ps := by
                  simp only [candAll, List.filterMap_cons, candOf, hc, ho, if_pos hn]
                rw [h1, ih _ hrest, h2]
                cases acc <;> rfl
              · have h1 : scanOre s mpos (p :: ps) acc = scanOre s mpos ps acc := by
                  simp only [scanOre, hc, ho, if_neg hn]
                have h2 : candAll s (p :: ps) = candAll s ps := by
                  simp only [candAll, List.filterMap_cons, candOf, hc, ho, if_neg hn]
                rw [h1, h2, ih acc hrest]

/-- On a well-formed grid (`cells` has `width * height` entries) every
in-range lookup succeeds. -/
theorem cell_isSome (s : GameState) (x y : Nat)
    (hlen : s.cells.length = s.width * s.height)
    (hx : x < s.width) (hy : y < s.height) :
    (s.cell (x : Int) (y : Int)).isSome := by
  unfold GameState.cell
  rw [if_neg (by omega)]
  have hxx : (x : Int).toNat = x := by omega
  have hyy : (y : Int).toNat = y := by omega
  rw [hxx, hyy]
  have h1 : y * s.width + x < (y + 1) * s.width := by
    rw [Nat.succ_mul]; omega
  have h2 : (y + 1) * s.width ≤ s.height * s.width :=
    Nat.mul_le_mul_right s.width hy
  have h3 : s.height * s.width = s.width * s.height := Nat.mul_comm _ _
  cases hget : s.cells.get? (y * s.width + x) with
  | none =>
      have := List.get?_eq_none.mp hget
      omega
  | some c => rfl

theorem colPairs_cells_isSome (s : GameState)
    (hlen : s.cells.length = s.width * s.height) :
    ∀ p ∈ colPairs s.width s.height, (s.cell (p.1 : Int) (p.2 : Int)).isSome := by
  intro p hp
  obtain ⟨hx, hy⟩ := (mem_colPairs _ _ p).mp hp
  exact cell_isSome s p.1 p.2 hlen hx hy

theorem candOf_elim (s : GameState) (p : Nat × Nat) (t : Int × Int × Nat)
    (h : candOf s p = some t) :
    t.1 = (p.1 : Int) ∧ t.2.1 = (p.2 : Int) ∧
      ∃ c, s.cell (p.1 : Int) (p.2 : Int) = some c ∧
        c.ore_amount = some t.2.2 ∧ 0 < t.2.2 := by
  unfold candOf at h
  cases hc : s.cell (p.1 : Int) (p.2 : Int) with
  | none => simp only [hc] at h; cases h
  | some c =>
      simp only [hc] at h
      cases ho : c.ore_amount with
      | none => simp only [ho] at h; cases h
      | some n =>
          simp only [ho] at h
          by_cases hn : 0 < n
          · rw [if_pos hn] at h
            cases h
            exact ⟨rfl, rfl, c, rfl, ho, hn⟩
          · rw [if_neg hn] at h; cases h

theorem candOf_intro (s : GameState) (x y : Nat) (c : Cell) (n : Nat)
    (hc : s.cell (x : Int) (y : Int) = some c)
    (ho : c.ore_amount = some n) (hn : 0 < n) :
    candOf s (x, y) = some ((x : Int), (y : Int), n) := by
  simp only [candOf, hc, ho, if_pos hn]

/-- Presence of a known positive-ore in-bounds cell, the condition that
decides between the dig branch and the random fallback. -/
def hasOreCell (s : GameState) : Prop :=
  ∃ x y c n, x < s.width ∧ y < s.height ∧
    s.cell (x : Int) (y : Int) = some c ∧ c.ore_amount = some n ∧ 0 < n

theorem candAll_nil_iff (s : GameState)
    (hlen : s.cells.length = s.width * s.height) :
    candAll s (colPairs s.width s.height) = [] ↔ ¬ hasOreCell s := by
  constructor
  · intro hnil hore
    obtain ⟨x, y, c, n, hx, hy, hc, ho, hn⟩ := hore
    have hmem : ((x : Int), (y : Int), n) ∈ candAll s (colPairs s.width s.height) := by
      refine List.mem_filterMap.mpr ⟨(x, y), ?_, candOf_intro s x y c n hc ho hn⟩
      exact (mem_colPairs _ _ _).mpr ⟨hx, hy⟩
    rw [hnil] at hmem
    cases hmem
  · intro hno
    rcases hnil : candAll s (colPairs s.width s.height) with _ | ⟨t, ts⟩
    · rfl
    · exfalso
      have hmem : t ∈ candAll s (colPairs s.width s.height) := by
        rw [hnil]; exact List.mem_cons_self _ _
      obtain ⟨p, hp, hcand⟩ := List.mem_filterMap.mp hmem
      obtain ⟨hx, hy⟩ := (mem_colPairs _ _ p).mp hp
      obtain ⟨-, -, c, hc, ho, hn⟩ := candOf_elim s p t hcand
      exact hno ⟨p.1, p.2, c, t.2.2, hx, hy, hc, ho, hn⟩

/-- Structure of any `choose_order` result: the scan either found a
candidate (a `DigAt`) or fell through to `go_to_random` (a `GoTo`);
shared helper for several theorems below. -/
theorem choose_order_shape (s : GameState) (i : Nat) (rnd : Int × Int) (o : Order)
    (h : s.choose_order i rnd = some o) :
    (∃ x y, o = Order.DigAt x y) ∨ o = Order.GoTo rnd.1 rnd.2 := by
  unfold GameState.choose_order at h
  cases hm : s.miners.get? i with
  | none => simp only [hm] at h; cases h
  | some miner =>
      simp only [hm] at h
      cases hs : scanOre s (miner.x, miner.y) (colPairs s.width s.height) none with
      | none => simp only [hs] at h; cases h
      | some r =>
          simp only [hs] at h
          cases r with
          | none => cases h; exact Or.inr rfl
          | some t => cases h; exact Or.inl ⟨t.1, t.2.1, rfl⟩

/-- A `choose_order` result is never the radar-mission order. -/
theorem choose_order_not_deploy (s : GameState) (i : Nat) (rnd : Int × Int) (o : Order)
    (h : s.choose_order i rnd = some o) : o.isDeployRadar = false := by
  rcases choose_order_shape s i rnd o h with ⟨x, y, rfl⟩ | rfl <;> rfl

/-- Modelled from the spec, for comparison only: the tie-break sentence
describes a row-major scan (`y` outer, `x` inner); the code's scan order
is `colPairs` (`x` outer, `y` inner). -/
def rowPairs (w h : Nat) : List (Nat × Nat) :=
  (List.range h).bind (fun y => (List.range w).map (fun x => (x, y)))

/-- Modelled from the spec, for comparison only: `choose_order` as the
spec's tie-break sentence describes it, scanning in row-major order. -/
def GameState.choose_order_row_major (s : GameState) (miner_index : Nat)
    (rnd : Int × Int) : Option Order :=
  match s.miners.get? miner_index with
  | none => none
  | some miner =>
      match scanOre s (miner.x, miner.y) (rowPairs s.width s.height) none with
      | none => none
      | some (some t) => some (Order.DigAt t.1 t.2.1)
      | some none => some (Order.go_to_random rnd)

/-- A cell with one known unit of ore. -/
def oreCell : Cell := { ore_amount := some 1, has_hole := false }

/-- A living miner standing at `(1, 1)`. -/
def minerA : Miner :=
  { x := 1, y := 1, item := none, uid := 0, alive := true, order := Order.GoTo 1 1 }

/-- A `3 × 3` grid with positive ore at `(2, 1)` (flat index 5) and
`(1, 2)` (flat index 7), both at Manhattan distance 1 from `(1, 1)`. -/
def cellsA : List Cell :=
  [Cell.default, Cell.default, Cell.default,
   Cell.default, Cell.default, oreCell,
   Cell.default, oreCell, Cell.default]

/-- Concrete state: one living miner at `(1, 1)` on the `cellsA` grid. -/
def stateA : GameState :=
  { width := 3
    height := 3
    my_score := 0
    opponent_score := 0
    cells := cellsA
    miners := [minerA]
    opponent_miners := []
    entities := [(0, Entity.Miner 0)]
    burried_radars := []
    burried_traps := []
    radar_cooldown := 0
    trap_cooldown := 0
    miner_with_radar := none }

/-- Concrete state: as `stateA` but with no known ore anywhere. -/
def stateB : GameState :=
  { stateA with cells := List.replicate 9 Cell.default }

/-- C5 counterexample.  The claim says the Target Selection Heuristic
breaks equal-distance ties in row-major order (`y` outer, `x` inner).
On `stateA` the cells `(1, 2)` and `(2, 1)` both hold positive ore at
Manhattan distance 1 from the miner; the code (x-outer scan) returns
`(1, 2)` while the row-major scan the claim describes would return
`(2, 1)`. -/
theorem choose_order_tiebreak_cex :
    stateA.choose_order 0 (1, 0) = some (Order.DigAt 1 2) ∧
    stateA.choose_order_row_major 0 (1, 0) = some (Order.DigAt 2 1) ∧
    manh_dist (1, 2) (1, 1) = manh_dist (2, 1) (1, 1) := by
  refine ⟨?_, ?_, ?_⟩ <;> decide

/-- C5 amended: among the known positive-ore cells at minimal Manhattan
distance, `choose_order` returns the candidate encountered first in
COLUMN-major scan order (`x` outer, `y` inner): `candAll` enumerates the
positive-ore cells in the code's scan order, every candidate before the
winner is strictly farther, and every one after it is no closer. -/
theorem choose_order_colmajor_tiebreak
    (s : GameState) (i : Nat) (rnd : Int × Int) (miner : Miner) (x y : Int)
    (hlen : s.cells.length = s.width * s.height)
    (hm : s.miners.get? i = some miner)
    (hres : s.choose_order i rnd = some (Order.DigAt x y)) :
    ∃ n l1 l2, candAll s (colPairs s.width s.height) = l1 ++ ((x, y, n) :: l2) ∧
      (∀ t ∈ l1, manh_dist (x, y) (miner.x, miner.y)
          < manh_dist (t.1, t.2.1) (miner.x, miner.y)) ∧
      (∀ t ∈ l2, manh_dist (x, y) (miner.x, miner.y)
          ≤ manh_dist (t.1, t.2.1) (miner.x, miner.y)) := by
  have hscan := scanOre_eq_selectMin s (miner.x, miner.y)
    (colPairs s.width s.height) none (colPairs_cells_isSome s hlen)
  unfold GameState.choose_order at hres
  simp only [hm, hscan] at hres
  cases hsel : selectMin (oreKey (miner.x, miner.y)) none
      (candAll s (colPairs s.width s.height)) with
  | none =>
      rw [hsel] at hres
      simp only [Order.go_to_random] at hres
      cases hres
  | some b =>
      rw [hsel] at hres
      have hinj : Order.DigAt b.1 b.2.1 = Order.DigAt x y := by
        injection hres
      have hbx : b.1 = x := by injection hinj
      have hby : b.2.1 = y := by
        have := hinj
        injection this with h1 h2
      obtain ⟨l1, l2, hsplit, hl1, hl2⟩ :=
        selectMin_spec (oreKey (miner.x, miner.y)) _ b hsel
      refine ⟨b.2.2, l1, l2, ?_, ?_, ?_⟩
      · rw [← hbx, ← hby]; exact hsplit
      · intro t ht
        have := hl1 t ht
        rw [← hbx, ← hby]
        exact this
      · intro t ht
        have := hl2 t ht
        rw [← hbx, ← hby]
        exact this

/-- C5 amended witness at `stateA`: the column-major decomposition around
the winning candidate `(1, 2)`. -/
theorem choose_order_colmajor_tiebreak_witness :
    ∃ n l1 l2,
      candAll stateA (colPairs stateA.width stateA.height)
        = l1 ++ (((1 : Int), (2 : Int), n) :: l2) ∧
      (∀ t ∈ l1, manh_dist (1, 2) (minerA.x, minerA.y)
          < manh_dist (t.1, t.2.1) (minerA.x, minerA.y)) ∧
      (∀ t ∈ l2, manh_dist (1, 2) (minerA.x, minerA.y)
          ≤ manh_dist (t.1, t.2.1) (minerA.x, minerA.y)) :=
  choose_order_colmajor_tiebreak stateA 0 (1, 0) minerA 1 2
    (by decide) (by decide) (by decide)

/-- C6: on a well-formed grid, if some in-bounds cell has known strictly
positive ore then `choose_order` returns a `DigAt` on such a cell at
minimal Manhattan distance from the miner; otherwise it returns the
`GoTo` at the injected random pair, which `gen_range(1, width)` and
`gen_range(0, height)` keep in bounds and outside the home column
(the pair is drawn uniformly by the rand crate; the draw enters the
embedding as the `rnd` parameter). -/
theorem choose_order_nearest_or_random
    (s : GameState) (i : Nat) (rnd : Int × Int) (miner : Miner)
    (hlen : s.cells.length = s.width * s.height)
    (hm : s.miners.get? i = some miner) :
    (hasOreCell s →
      ∃ (x y n : Nat), s.choose_order i rnd = some (Order.DigAt (x : Int) (y : Int)) ∧
        x < s.width ∧ y < s.height ∧
        (∃ c, s.cell (x : Int) (y : Int) = some c ∧ c.ore_amount = some n ∧ 0 < n) ∧
        (∀ x' y' c' n', x' < s.width → y' < s.height →
          s.cell (x' : Int) (y' : Int) = some c' → c'.ore_amount = some n' → 0 < n' →
          manh_dist ((x : Int), (y : Int)) (miner.x, miner.y)
            ≤ manh_dist ((x' : Int), (y' : Int)) (miner.x, miner.y)))
    ∧ (¬ hasOreCell s →
        1 ≤ rnd.1 → rnd.1 < (s.width : Int) → 0 ≤ rnd.2 → rnd.2 < (s.height : Int) →
        s.choose_order i rnd = some (Order.GoTo rnd.1 rnd.2) ∧ rnd.1 ≠ 0) := by
  have hscan := scanOre_eq_selectMin s (miner.x, miner.y)
    (colPairs s.width s.height) none (colPairs_cells_isSome s hlen)
  constructor
  · intro hore
    have hne : candAll s (colPairs s.width s.height) ≠ [] := by
      intro hnil
      exact (candAll_nil_iff s hlen).mp hnil hore
    cases hsel : selectMin (oreKey (miner.x, miner.y)) none
        (candAll s (colPairs s.width s.height)) with
    | none => exact absurd ((selectMin_eq_none_iff _ _).mp hsel) hne
    | some b =>
        have hres : s.choose_order i rnd = some (Order.DigAt b.1 b.2.1) := by
          unfold GameState.choose_order
          simp only [hm, hscan, hsel]
        have hmem := selectMin_mem _ _ _ hsel
        obtain ⟨p, hp, hcand⟩ := List.mem_filterMap.mp hmem
        obtain ⟨hx, hy⟩ := (mem_colPairs _ _ p).mp hp
        obtain ⟨hb1, hb21, c, hc, ho, hn⟩ := candOf_elim s p b hcand
        refine ⟨p.1, p.2, b.2.2, ?_, hx, hy, ⟨c, hc, ho, hn⟩, ?_⟩
        · rw [hb1, hb21] at hres
          exact hres
        · intro x' y' c' n' hx' hy' hc' ho' hn'
          have hmem' : ((x' : Int), (y' : Int), n')
              ∈ candAll s (colPairs s.width s.height) :=
            List.mem_filterMap.mpr ⟨(x', y'), (mem_colPairs _ _ _).mpr ⟨hx', hy'⟩,
              candOf_intro s x' y' c' n' hc' ho' hn'⟩
          have hmin := selectMin_min _ _ _ hsel _ hmem'
          unfold oreKey at hmin
          rw [hb1, hb21] at hmin
          exact hmin
  · intro hno h1 h2 h3 h4
    have hnil : candAll s (colPairs s.width s.height) = [] :=
      (candAll_nil_iff s hlen).mpr hno
    have hsel : selectMin (oreKey (miner.x, miner.y)) none
        (candAll s (colPairs s.width s.height)) = none := by
      rw [hnil]; rfl
    refine ⟨?_, by omega⟩
    unfold GameState.choose_order
    simp only [hm, hscan, hsel]
    rfl

/-- C6 witness at `stateB` (no known ore): the fallback returns the
injected random pair `(1, 0)` as a `GoTo`, outside the home column. -/
theorem choose_order_nearest_or_random_witness :
    stateB.choose_order 0 (1, 0) = some (Order.GoTo 1 0) ∧ (1 : Int) ≠ 0 := by
  refine (choose_order_nearest_or_random stateB 0 (1, 0) minerA
    (by decide) (by decide)).2 ?_ (by decide) (by decide) (by decide) (by decide)
  rintro ⟨x, y, c, n, hx, hy, hc, ho, hn⟩
  unfold GameState.cell at hc
  rw [if_neg (by omega)] at hc
  have hmem : c ∈ List.replicate 9 Cell.default := List.get?_mem hc
  rw [List.eq_of_mem_replicate hmem] at ho
  exact Option.noConfusion ho

/-- C10: every result of `choose_order` is a `DigAt` (scan hit) or a
`GoTo` (random fallback); it is never `DeployRadarAt` nor `Deliver`,
so re-adopting its result cannot create a radar-mission or delivery
order. -/
theorem choose_order_result_forms (s : GameState) (i : Nat) (rnd : Int × Int) (o : Order)
    (h : s.choose_order i rnd = some o) :
    ((∃ x y, o = Order.DigAt x y) ∨ (∃ x y, o = Order.GoTo x y)) ∧
    o.isDeployRadar = false ∧ (∀ x y, o ≠ Order.Deliver x y) := by
  rcases choose_order_shape s i rnd o h with ⟨x, y, rfl⟩ | rfl
  · exact ⟨Or.inl ⟨x, y, rfl⟩, rfl, fun _ _ hne => Order.noConfusion hne⟩
  · exact ⟨Or.inr ⟨rnd.1, rnd.2, rfl⟩, rfl, fun _ _ hne => Order.noConfusion hne⟩

/-- C10 witness at `stateA`: the concrete result `DigAt 1 2` is not the
radar-mission variant. -/
theorem choose_order_result_forms_witness :
    (Order.DigAt (1 : Int) (2 : Int)).isDeployRadar = false :=
  (choose_order_result_forms stateA 0 (1, 0) (Order.DigAt 1 2) (by decide)).2.1

/-- A state with no owned robots at all (hence zero living owned robots). -/
def stateEmpty : GameState := GameState.new 4 4

/-- A dead miner whose row is exactly the middle row of a height-4 grid. -/
def minerDead : Miner :=
  { x := 1, y := 2, item := none, uid := 0, alive := false, order := Order.GoTo 1 1 }

/-- A living miner far from the middle row. -/
def minerFar : Miner :=
  { x := 1, y := 0, item := none, uid := 1, alive := true, order := Order.GoTo 1 1 }

/-- A state whose only owned robot is dead (zero living owned robots,
nonempty robot list). -/
def stateDead : GameState :=
  { stateA with
    height := 4
    miners := [minerDead] }

/-- A state with a dead robot on the middle row and a living robot away
from it. -/
def stateC4 : GameState :=
  { stateA with
    height := 4
    miners := [minerDead, minerFar]
    entities := [(0, Entity.Miner 0), (1, Entity.Miner 1)] }

/-- The state `assign_radar` produces from `stateC4` with random pair
`(1, 0)`. -/
def stateC4x : GameState :=
  { stateC4 with
    miner_with_radar := some 0
    miners := modifyMiner stateC4.miners 0
      (fun m => { m with order := Order.DeployRadarAt 1 0 }) }

/-- C3 counterexample.  The claim says that with zero living owned robots
the Radar Assignment Policy is a tolerated no-op (no state change, no
order assigned, no panic).  In the code: with an empty robot list
`found.unwrap()` panics (`none` here), and with a nonempty list of only
dead robots it still assigns the radar mission — to robot 0, which is
dead — so it is neither a no-op nor free of panics. -/
theorem assign_radar_zero_living_cex :
    stateEmpty.assign_radar (1, 1) = none ∧
    ((stateDead.assign_radar (1, 1)).map (fun s => s.miner_with_radar)
        = some (some 0) ∧
      (stateDead.miners.get? 0).map Miner.alive = some false) := by
  refine ⟨?_, ?_, ?_⟩ <;> decide

/-- C3 amended: invoked on an empty owned-robot list the policy panics
(`found.unwrap()`, modelled by `none`); on a nonempty list — even one
with zero living robots — it always assigns the radar mission to some
robot, so it is never a tolerated no-op. -/
theorem assign_radar_empty_panics_nonempty_assigns (s : GameState) (rnd : Int × Int) :
    (s.miners = [] → s.assign_radar rnd = none) ∧
    (s.miners ≠ [] →
      ∃ s' i, s.assign_radar rnd = some s' ∧ s'.miner_with_radar = some i) := by
  constructor
  · intro hnil
    unfold GameState.assign_radar findRadarMiner
    rw [hnil]
    rfl
  · intro hne
    cases hsel : selectMin (fun q => middleDist (s.height / 2) q.2) none
        (enumIdx 0 s.miners) with
    | none =>
        exfalso
        have hn := (selectMin_eq_none_iff _ _).mp hsel
        cases hms : s.miners with
        | nil => exact hne hms
        | cons m ms => rw [hms] at hn; cases hn
    | some p =>
        have hres : s.assign_radar rnd = some { s with
            miner_with_radar := some p.1
            miners := modifyMiner s.miners p.1
              (fun m => { m with order := Order.deploy_radar_to_random rnd }) } := by
          unfold GameState.assign_radar findRadarMiner
          rw [hsel]
          rfl
        exact ⟨_, p.1, hres, rfl⟩

/-- C3 amended witness: the empty list panics; the all-dead list gets an
assignment. -/
theorem assign_radar_empty_panics_witness :
    stateEmpty.assign_radar (1, 1) = none ∧
    ∃ s' i, stateDead.assign_radar (1, 1) = some s' ∧ s'.miner_with_radar = some i :=
  ⟨(assign_radar_empty_panics_nonempty_assigns stateEmpty (1, 1)).1 rfl,
   (assign_radar_empty_panics_nonempty_assigns stateDead (1, 1)).2 (by decide)⟩

/-- C4 counterexample.  The claim says the policy selects only among the
LIVING owned robots.  On `stateC4` the dead robot 0 sits exactly on the
middle row and the living robot 1 does not; the code selects the dead
robot 0. -/
theorem assign_radar_dead_selected_cex :
    ((stateC4.assign_radar (1, 0)).map (fun s => s.miner_with_radar)
        = some (some 0)) ∧
    (stateC4.miners.get? 0).map Miner.alive = some false ∧
    (stateC4.miners.get? 1).map Miner.alive = some true := by
  refine ⟨?_, ?_, ?_⟩ <;> decide

/-- C4 amended: whenever `assign_radar` succeeds it selects, among ALL
owned robots — alive or dead — the one minimising `|y - height / 2|`,
breaking ties in favour of the lowest index; the selected robot's order
becomes the radar mission. -/
theorem assign_radar_selects_first_closest
    (s : GameState) (rnd : Int × Int) (s' : GameState)
    (h : s.assign_radar rnd = some s') :
    ∃ i m, s'.miner_with_radar = some i ∧ s.miners.get? i = some m ∧
      (∀ j mj, s.miners.get? j = some mj →
        middleDist (s.height / 2) m ≤ middleDist (s.height / 2) mj) ∧
      (∀ j mj, j < i → s.miners.get? j = some mj →
        middleDist (s.height / 2) m < middleDist (s.height / 2) mj) ∧
      s'.miners = modifyMiner s.miners i
        (fun mm => { mm with order := Order.deploy_radar_to_random rnd }) := by
  unfold GameState.assign_radar findRadarMiner at h
  cases hsel : selectMin (fun q => middleDist (s.height / 2) q.2) none
      (enumIdx 0 s.miners) with
  | none => rw [hsel] at h; cases h
  | some p =>
      rw [hsel] at h
      cases h
      have hpmem := selectMin_mem _ _ _ hsel
      have hpget := (mem_enumIdx s.miners 0 p hpmem).2
      rw [Nat.sub_zero] at hpget
      obtain ⟨l1, l2, hsplit, hl1, hl2⟩ := selectMin_spec _ _ _ hsel
      have hlenp : (enumIdx 0 s.miners).get? l1.length = some p := by
        rw [hsplit, List.get?_append_right (le_refl _)]
        simp
      have hp1 : p.1 = l1.length := by
        rw [enumIdx_get? s.miners 0 l1.length] at hlenp
        cases hg : s.miners.get? l1.length with
        | none => rw [hg] at hlenp; cases hlenp
        | some a =>
            rw [hg] at hlenp
            simp only [Option.map] at hlenp
            have := congrArg Prod.fst (Option.some.inj hlenp)
            simp at this
            omega
      refine ⟨p.1, p.2, rfl, hpget, ?_, ?_, rfl⟩
      · intro j mj hj
        have hjmem := enumIdx_get?_mem s.miners 0 j mj hj
        rw [Nat.zero_add] at hjmem
        exact selectMin_min _ _ _ hsel _ hjmem
      · intro j mj hji hj
        have hjget : (enumIdx 0 s.miners).get? j = some (j, mj) := by
          rw [enumIdx_get? s.miners 0 j, hj]
          simp
        have hjl1 : (j, mj) ∈ l1 := by
          rw [hsplit] at hjget
          rw [List.get?_append (by omega)] at hjget
          exact List.get?_mem hjget
        exact hl1 _ hjl1

/-- C4 amended witness at `stateC4`: the selection facts hold for the
concrete output state `stateC4x`. -/
theorem assign_radar_selects_first_closest_witness :
    ∃ i m, stateC4x.miner_with_radar = some i ∧ stateC4.miners.get? i = some m ∧
      (∀ j mj, stateC4.miners.get? j = some mj →
        middleDist (stateC4.height / 2) m ≤ middleDist (stateC4.height / 2) mj) ∧
      (∀ j mj, j < i → stateC4.miners.get? j = some mj →
        middleDist (stateC4.height / 2) m < middleDist (stateC4.height / 2) mj) ∧
      stateC4x.miners = modifyMiner stateC4.miners i
        (fun mm => { mm with order := Order.deploy_radar_to_random (1, 0) }) :=
  assign_radar_selects_first_closest stateC4 (1, 0) stateC4x (by decide)

/-!
The Snapshot Applier.  Each entity line of a turn carries
`(id, type, x, y, item)`; the main loop decodes the type code with
`.try_into().unwrap()` — a panic on an unknown code — and the item code
with `.try_into().ok()` — `None` on an unknown code.  The random pair a
`go_to_random` call would draw when a new miner is registered travels
with the observation as the injected `rnd` field.
-/

/-- One entity observation of a turn. -/
structure EntityObs where
  uid : Nat
  type_code : Nat
  x : Int
  y : Int
  item_code : Int
  rnd : Int × Int
deriving DecidableEq

/-- Processing of one entity observation (body of the per-entity loop in
`main`); `none` models the `unwrap` panic on an unknown type code. -/
def processEntity (s : GameState) (obs : EntityObs) : Option GameState :=
  match EntityType.try_from obs.type_code with
  | Except.error _ => none
  | Except.ok entity_type =>
      let item : Option Item := (Item.try_from obs.item_code).toOption
      if s.entity_exists obs.uid = false then
        match entity_type with
        | EntityType.Miner =>
            let mi := s.add_miner
              { x := obs.x, y := obs.y, item := item, uid := obs.uid,
                alive := true, order := Order.go_to_random obs.rnd }
            some (mi.1.add_entity obs.uid (Entity.Miner mi.2))
        | EntityType.OpponentMiner =>
            let mi := s.add_opponent_miner
              { x := obs.x, y := obs.y, item := item, uid := obs.uid,
                alive := true, order := Order.go_to_random obs.rnd }
            some (mi.1.add_entity obs.uid (Entity.OpponentMiner mi.2))
        | EntityType.BurriedRadar =>
            some ((s.add_entity obs.uid Entity.BurriedRadar).burry_radar obs.uid obs.x obs.y)
        | EntityType.BurriedTrap =>
            some ((s.add_entity obs.uid Entity.BurriedTrap).burry_trap obs.uid obs.x obs.y)
      else
        match entity_type with
        | EntityType.Miner | EntityType.OpponentMiner =>
            let s1 := if obs.x = -1 ∧ obs.y = -1 then s.kill obs.uid else s
            some ((s1.update_position obs.uid obs.x obs.y).update_item obs.uid item)
        | EntityType.BurriedRadar =>
            some (s.update_radar_position obs.uid obs.x obs.y)
        | EntityType.BurriedTrap =>
            some (s.update_trap_position obs.uid obs.x obs.y)

/-- The per-turn entity loop. -/
def applyEntities : GameState → List EntityObs → Option GameState
  | s, [] => some s
  | s, obs :: rest =>
      match processEntity s obs with
      | none => none
      | some s' => applyEntities s' rest

theorem entity_type_try_from_unknown (v : Nat) (hv : 4 ≤ v) :
    EntityType.try_from v = Except.error "unknown entity type" := by
  rcases v with _ | _ | _ | _ | v
  · omega
  · omega
  · omega
  · omega
  · rfl

theorem item_try_from_unknown (c : Int) (h2 : c ≠ 2) (h3 : c ≠ 3) (h4 : c ≠ 4) :
    Item.try_from c = Except.error "unknown item" := by
  unfold Item.try_from
  split
  · omega
  · omega
  · omega
  · rfl

/-- An observation carrying an unknown entity type code. -/
def obsBadType : EntityObs :=
  { uid := 7, type_code := 9, x := 2, y := 2, item_code := -1, rnd := (1, 0) }

/-- A well-formed observation following `obsBadType` in the same turn. -/
def obsGood : EntityObs :=
  { uid := 8, type_code := 0, x := 2, y := 2, item_code := -1, rnd := (1, 0) }

/-- An observation of a known entity carrying an unknown item code. -/
def obsBadItem : EntityObs :=
  { uid := 0, type_code := 0, x := 2, y := 2, item_code := 99, rnd := (1, 0) }

/-- C2 counterexample.  The claim says an unrecognized entity type code
only skips that record and the turn continues.  In the code the type
code is decoded with `.try_into().unwrap()`: on type code 9 the whole
entity loop aborts (a panic), the following well-formed record is never
processed. -/
theorem decode_error_aborts_cex :
    applyEntities stateB [obsBadType, obsGood] = none ∧
    EntityType.try_from obsBadType.type_code = Except.error "unknown entity type" := by
  exact ⟨by decide, rfl⟩

/-- C2 amended: an unrecognized entity type code is fatal — `try_from`
reports it and the `unwrap` at the call site panics, aborting the turn
and the process; an unrecognized item code, by contrast, is not an
error at all: the record is applied exactly as if no item were carried
(`.ok()` turns the decode failure into `None`). -/
theorem decode_errors_behavior :
    (∀ v, 4 ≤ v → EntityType.try_from v = Except.error "unknown entity type") ∧
    (∀ (s : GameState) (obs : EntityObs), 4 ≤ obs.type_code →
      processEntity s obs = none) ∧
    (∀ (s : GameState) (obs : EntityObs),
      obs.item_code ≠ 2 → obs.item_code ≠ 3 → obs.item_code ≠ 4 →
      processEntity s obs = processEntity s { obs with item_code := -1 }) := by
  refine ⟨entity_type_try_from_unknown, ?_, ?_⟩
  · intro s obs h
    simp only [processEntity, entity_type_try_from_unknown obs.type_code h]
  · intro s obs h2 h3 h4
    have ha := item_try_from_unknown obs.item_code h2 h3 h4
    have hb : Item.try_from (-1) = Except.error "unknown item" := rfl
    simp only [processEntity, ha, hb]

/-- C2 amended witness: the unknown type code 9 aborts; the unknown item
code 99 behaves exactly like the "no item" code -1. -/
theorem decode_errors_behavior_witness :
    processEntity stateB obsBadType = none ∧
    processEntity stateB obsBadItem
      = processEntity stateB { obsBadItem with item_code := -1 } :=
  ⟨decode_errors_behavior.2.1 stateB obsBadType (by decide),
   decode_errors_behavior.2.2 stateB obsBadItem (by decide) (by decide) (by decide)⟩

/-!
The Order Engine: the per-miner loop
`for miner_index in 0 .. game_state.miners.len()` of `main`.  Each
iteration clones the miner, branches on whether it is the tracked radar
carrier, and submits exactly one request; the two `unreachable!()` arms
(tracked carrier without a `DeployRadarAt` order, untracked miner with
one) are modelled by `none`.  `rnd` is the random pair a `go_to_random`
fallback inside `choose_order` would draw this iteration.
-/

/-- The Rust idiom `game_state.miners[i].order = o`. -/
def setMinerOrder (s : GameState) (i : Nat) (o : Order) : GameState :=
  { s with miners := modifyMiner s.miners i (fun m => { m with order := o }) }

/-- One iteration of the per-miner loop. -/
def stepMiner (s : GameState) (miner_index : Nat) (rnd : Int × Int) :
    Option (GameState × Request) :=
  match s.miners.get? miner_index with
  | none => none
  | some miner =>
      if s.miner_with_radar = some miner_index then
        match miner.order with
        | Order.DeployRadarAt x y =>
            if miner.item = some Item.Radar then
              if manh_dist (x, y) (miner.x, miner.y) = 0 then
                let s1 := { s with miner_with_radar := none }
                match s1.choose_order miner_index rnd with
                | none => none
                | some o => some (setMinerOrder s1 miner_index o, Request.Dig x y)
              else some (s, Request.Move x y)
            else if miner.x ≠ 0 then
              some (s, Request.back_to_hq (miner.x, miner.y))
            else some (s, Request.Item RequestItem.Radar)
        | _ => none
      else
        match miner.order with
        | Order.GoTo x y | Order.DigAt x y =>
            if manh_dist (x, y) (miner.x, miner.y) = 0 then
              match s.cell x y with
              | none => none
              | some cell =>
                  if miner.item = some Item.Ore then
                    some (setMinerOrder s miner_index (Order.Deliver x y),
                          Request.back_to_hq (x, y))
                  else if cell.ore_amount = none ∧ cell.has_hole = false then
                    some (s, Request.Dig x y)
                  else if 0 < cell.ore_amount.getD 0 then
                    some (setMinerOrder s miner_index (Order.Deliver x y),
                          Request.Dig x y)
                  else
                    match s.choose_order miner_index rnd with
                    | none => none
                    | some o =>
                        some (setMinerOrder s miner_index o,
                              Request.Move o.destination.1 o.destination.2)
            else
              match s.choose_order miner_index rnd with
              | none => none
              | some other_order =>
                  if other_order.is_digging_order then
                    some (setMinerOrder s miner_index other_order,
                          Request.Move other_order.destination.1 other_order.destination.2)
                  else some (s, Request.Move x y)
        | Order.Deliver x y =>
            if miner.x ≠ 0 then
              some (s, Request.back_to_hq (x, y))
            else
              match s.choose_order miner_index rnd with
              | none => none
              | some o =>
                  some (setMinerOrder s miner_index o,
                        Request.Move o.destination.1 o.destination.2)
        | Order.DeployRadarAt _ _ => none

/-- The per-miner loop, iterating indices `i, i+1, ...` while `fuel`
counts the remaining iterations; requests are collected in submission
order. -/
def stepLoop (rnds : Nat → Int × Int) :
    GameState → Nat → Nat → List Request → Option (GameState × List Request)
  | s, _, 0, acc => some (s, acc.reverse)
  | s, i, Nat.succ fuel, acc =>
      match stepMiner s i (rnds i) with
      | none => none
      | some (s', req) => stepLoop rnds s' (i + 1) fuel (req :: acc)

/-- The whole per-turn Order Engine pass: one iteration per owned robot
(the Rust range `0 .. game_state.miners.len()`). -/
def stepMiners (s : GameState) (rnds : Nat → Int × Int) :
    Option (GameState × List Request) :=
  stepLoop rnds s 0 s.miners.length []

theorem length_modifyMiner (ms : List Miner) :
    ∀ (i : Nat) (f : Miner → Miner), (modifyMiner ms i f).length = ms.length := by
  induction ms with
  | nil => intro i f; cases i <;> rfl
  | cons m ms ih =>
      intro i f
      cases i with
      | zero => rfl
      | succ j => simpa [modifyMiner] using ih j f

/-- The sequence of orders of all owned robots, the quantity the radar
singleton invariant talks about. -/
def ordersOf (s : GameState) : List Order := s.miners.map Miner.order

theorem map_modifyMiner_order (ms : List Miner) :
    ∀ (i : Nat) (o : Order),
      (modifyMiner ms i (fun m => { m with order := o })).map Miner.order
        = (ms.map Miner.order).set i o := by
  induction ms with
  | nil => intro i o; cases i <;> rfl
  | cons m ms ih =>
      intro i o
      cases i with
      | zero => rfl
      | succ j => simp [modifyMiner, List.set, ih j o]

theorem map_modifyMiner_keep (ms : List Miner) :
    ∀ (i : Nat) (f : Miner → Miner), (∀ m, (f m).order = m.order) →
      (modifyMiner ms i f).map Miner.order = ms.map Miner.order := by
  induction ms with
  | nil => intro i f _; cases i <;> rfl
  | cons m ms ih =>
      intro i f hf
      cases i with
      | zero => simp [modifyMiner, hf m]
      | succ j => simp [modifyMiner, ih j f hf]

theorem ordersOf_setMinerOrder (s : GameState) (i : Nat) (o : Order) :
    ordersOf (setMinerOrder s i o) = (ordersOf s).set i o :=
  map_modifyMiner_order s.miners i o

theorem setMinerOrder_miner_with_radar (s : GameState) (i : Nat) (o : Order) :
    (setMinerOrder s i o).miner_with_radar = s.miner_with_radar := rfl

/-- Structure of a successful `stepMiner` iteration: the state is either
untouched, or exactly one miner's order is overwritten with a
non-radar-mission order — and the tracked-carrier flag is cleared
exactly when the acting miner was the tracked carrier (radar burial). -/
theorem stepMiner_cases (s : GameState) (i : Nat) (rnd : Int × Int)
    (s' : GameState) (req : Request)
    (h : stepMiner s i rnd = some (s', req)) :
    s' = s ∨
    (∃ o, o.isDeployRadar = false ∧ s' = setMinerOrder s i o ∧
      s.miner_with_radar ≠ some i) ∨
    (∃ o, o.isDeployRadar = false ∧
      s' = setMinerOrder { s with miner_with_radar := none } i o ∧
      s.miner_with_radar = some i) := by
  unfold stepMiner at h
  cases hm : s.miners.get? i with
  | none => simp only [hm] at h; cases h
  | some miner =>
      simp only [hm] at h
      by_cases hr : s.miner_with_radar = some i
      · rw [if_pos hr] at h
        cases ho : miner.order with
        | DeployRadarAt x y =>
            simp only [ho] at h
            by_cases hitem : miner.item = some Item.Radar
            · rw [if_pos hitem] at h
              by_cases hdist : manh_dist (x, y) (miner.x, miner.y) = 0
              · rw [if_pos hdist] at h
                cases hco : GameState.choose_order { s with miner_with_radar := none } i rnd with
                | none => simp only [hco] at h; cases h
                | some o =>
                    simp only [hco] at h
                    cases h
                    exact Or.inr (Or.inr ⟨o, choose_order_not_deploy _ _ _ _ hco, rfl, hr⟩)
              · rw [if_neg hdist] at h
                cases h
                exact Or.inl rfl
            · rw [if_neg hitem] at h
              by_cases hx : miner.x ≠ 0
              · rw [if_pos hx] at h
                cases h
                exact Or.inl rfl
              · rw [if_neg hx] at h
                cases h
                exact Or.inl rfl
        | GoTo x y => simp only [ho] at h; cases h
        | DigAt x y => simp only [ho] at h; cases h
        | Deliver x y => simp only [ho] at h; cases h
      · rw [if_neg hr] at h
        cases ho : miner.order with
        | DeployRadarAt x y => simp only [ho] at h; cases h
        | Deliver x y =>
            simp only [ho] at h
            by_cases hx : miner.x ≠ 0
            · rw [if_pos hx] at h
              cases h
              exact Or.inl rfl
            · rw [if_neg hx] at h
              cases hco : s.choose_order i rnd with
              | none => simp only [hco] at h; cases h
              | some o =>
                  simp only [hco] at h
                  cases h
                  exact Or.inr (Or.inl ⟨o, choose_order_not_deploy _ _ _ _ hco, rfl, hr⟩)
        | GoTo x y =>
            simp only [ho] at h
            by_cases hdist : manh_dist (x, y) (miner.x, miner.y) = 0
            · rw [if_pos hdist] at h
              cases hcell : s.cell x y with
              | none => simp only [hcell] at h; cases h
              | some cell =>
                  simp only [hcell] at h
                  by_cases hore : miner.item = some Item.Ore
                  · rw [if_pos hore] at h
                    cases h
                    exact Or.inr (Or.inl ⟨Order.Deliver x y, rfl, rfl, hr⟩)
                  · rw [if_neg hore] at h
                    by_cases hcond : cell.ore_amount = none ∧ cell.has_hole = false
                    · rw [if_pos hcond] at h
                      cases h
                      exact Or.inl rfl
                    · rw [if_neg hcond] at h
                      by_cases hpos : 0 < cell.ore_amount.getD 0
                      · rw [if_pos hpos] at h
                        cases h
                        exact Or.inr (Or.inl ⟨Order.Deliver x y, rfl, rfl, hr⟩)
                      · rw [if_neg hpos] at h
                        cases hco : s.choose_order i rnd with
                        | none => simp only [hco] at h; cases h
                        | some o =>
                            simp only [hco] at h
                            cases h
                            exact Or.inr (Or.inl ⟨o, choose_order_not_deploy _ _ _ _ hco, rfl, hr⟩)
            · rw [if_neg hdist] at h
              cases hco : s.choose_order i rnd with
              | none => simp only [hco] at h; cases h
              | some other =>
                  simp only [hco] at h
                  cases hdig : other.is_digging_order with
                  | true =>
                      simp only [hdig, if_true] at h
                      cases h
                      exact Or.inr (Or.inl ⟨other, choose_order_not_deploy _ _ _ _ hco, rfl, hr⟩)
                  | false =>
                      simp only [hdig, if_false] at h
                      cases h
                      exact Or.inl rfl
        | DigAt x y =>
            simp only [ho] at h
            by_cases hdist : manh_dist (x, y) (miner.x, miner.y) = 0
            · rw [if_pos hdist] at h
              cases hcell : s.cell x y with
              | none => simp only [hcell] at h; cases h
              | some cell =>
                  simp only [hcell] at h
                  by_cases hore : miner.item = some Item.Ore
                  · rw [if_pos hore] at h
                    cases h
                    exact Or.inr (Or.inl ⟨Order.Deliver x y, rfl, rfl, hr⟩)
                  · rw [if_neg hore] at h
                    by_cases hcond : cell.ore_amount = none ∧ cell.has_hole = false
                    · rw [if_pos hcond] at h
                      cases h
                      exact Or.inl rfl
                    · rw [if_neg hcond] at h
                      by_cases hpos : 0 < cell.ore_amount.getD 0
                      · rw [if_pos hpos] at h
                        cases h
                        exact Or.inr (Or.inl ⟨Order.Deliver x y, rfl, rfl, hr⟩)
                      · rw [if_neg hpos] at h
                        cases hco : s.choose_order i rnd with
                        | none => simp only [hco] at h; cases h
                        | some o =>
                            simp only [hco] at h
                            cases h
                            exact Or.inr (Or.inl ⟨o, choose_order_not_deploy _ _ _ _ hco, rfl, hr⟩)
            · rw [if_neg hdist] at h
              cases hco : s.choose_order i rnd with
              | none => simp only [hco] at h; cases h
              | some other =>
                  simp only [hco] at h
                  cases hdig : other.is_digging_order with
                  | true =>
                      simp only [hdig, if_true] at h
                      cases h
                      exact Or.inr (Or.inl ⟨other, choose_order_not_deploy _ _ _ _ hco, rfl, hr⟩)
                  | false =>
                      simp only [hdig, if_false] at h
                      cases h
                      exact Or.inl rfl

theorem stepMiner_miners_length (s : GameState) (i : Nat) (rnd : Int × Int)
    (s' : GameState) (req : Request)
    (h : stepMiner s i rnd = some (s', req)) :
    s'.miners.length = s.miners.length := by
  rcases stepMiner_cases s i rnd s' req h with rfl | ⟨o, -, rfl, -⟩ | ⟨o, -, rfl, -⟩
  · rfl
  · exact length_modifyMiner s.miners i _
  · exact length_modifyMiner s.miners i _

theorem stepLoop_spec (rnds : Nat → Int × Int) :
    ∀ (fuel : Nat) (s : GameState) (i : Nat) (acc : List Request)
      (s' : GameState) (reqs : List Request),
      stepLoop rnds s i fuel acc = some (s', reqs) →
      reqs.length = fuel + acc.length ∧ s'.miners.length = s.miners.length := by
  intro fuel
  induction fuel with
  | zero =>
      intro s i acc s' reqs h
      cases h
      simp
  | succ fuel ih =>
      intro s i acc s' reqs h
      unfold stepLoop at h
      cases hstep : stepMiner s i (rnds i) with
      | none => simp only [hstep] at h; cases h
      | some pr =>
          simp only [hstep] at h
          obtain ⟨hlen, hminers⟩ := ih pr.1 (i + 1) (pr.2 :: acc) s' reqs h
          refine ⟨by simp at hlen; omega, ?_⟩
          rw [hminers, stepMiner_miners_length s i (rnds i) pr.1 pr.2]
          cases hp : pr
          rw [hp] at hstep
          exact hstep

/-- C7 amended: whenever the per-turn engine pass completes without
panicking, it emits exactly one action per owned robot — dead or alive —
and the number of robots is unchanged.  (The loop has no liveness check:
dead robots are processed like living ones; see the counterexample for a
dead robot receiving a substantive `Move`.) -/
theorem stepMiners_one_action_per_robot (s : GameState) (rnds : Nat → Int × Int)
    (s' : GameState) (reqs : List Request)
    (h : stepMiners s rnds = some (s', reqs)) :
    reqs.length = s.miners.length ∧ s'.miners.length = s.miners.length := by
  have hspec := stepLoop_spec rnds s.miners.length s 0 [] s' reqs h
  simpa using hspec

/-- A dead miner travelling under a `GoTo` order. -/
def minerDeadGo : Miner :=
  { x := 1, y := 0, item := none, uid := 0, alive := false, order := Order.GoTo 2 2 }

/-- A state whose only owned robot is dead and mid-travel. -/
def stateC7 : GameState :=
  { stateB with miners := [minerDeadGo] }

/-- C7 counterexample.  The claim says a dead owned robot is skipped or
emits only a `Wait`.  The engine loop never checks `alive`: on
`stateC7` the single dead robot is processed normally and emits the
substantive action `Move 2 2`. -/
theorem engine_dead_robot_substantive_cex :
    (stepMiners stateC7 (fun _ => (1, 0))).map Prod.snd = some [Request.Move 2 2] ∧
    (stateC7.miners.get? 0).map Miner.alive = some false ∧
    Request.Move 2 2 ≠ Request.Wait := by
  refine ⟨?_, ?_, ?_⟩ <;> decide

/-- C7 amended witness: on `stateC7` (one robot) exactly one action is
emitted. -/
theorem stepMiners_one_action_per_robot_witness :
    ([Request.Move 2 2] : List Request).length = stateC7.miners.length ∧
    stateC7.miners.length = stateC7.miners.length :=
  stepMiners_one_action_per_robot stateC7 (fun _ => (1, 0)) stateC7
    [Request.Move 2 2] (by decide)

/-- C8: a living robot that is not the radar carrier, ordered to
`GoTo`/`DigAt` its own position, not carrying ore, standing on a cell
with known strictly positive ore, switches to `Deliver` and digs that
cell on the same turn. -/
theorem arrival_positive_ore_digs_and_delivers
    (s : GameState) (i : Nat) (rnd : Int × Int) (miner : Miner)
    (x y : Int) (c : Cell) (n : Nat)
    (hm : s.miners.get? i = some miner)
    (halive : miner.alive = true)
    (hr : s.miner_with_radar ≠ some i)
    (ho : miner.order = Order.GoTo x y ∨ miner.order = Order.DigAt x y)
    (hx : miner.x = x) (hy : miner.y = y)
    (hitem : miner.item ≠ some Item.Ore)
    (hc : s.cell x y = some c)
    (hore : c.ore_amount = some n) (hn : 0 < n) :
    stepMiner s i rnd
      = some (setMinerOrder s i (Order.Deliver x y), Request.Dig x y) ∧
    (ordersOf (setMinerOrder s i (Order.Deliver x y))).get? i
      = some (Order.Deliver x y) := by
  have hdist : manh_dist (x, y) (miner.x, miner.y) = 0 := by
    rw [hx, hy]
    unfold manh_dist
    simp
  have hcond : ¬ (c.ore_amount = none ∧ c.has_hole = false) := by
    rintro ⟨hnone, -⟩
    rw [hore] at hnone
    cases hnone
  have hpos : 0 < c.ore_amount.getD 0 := by
    rw [hore]
    exact hn
  have hmain : stepMiner s i rnd
      = some (setMinerOrder s i (Order.Deliver x y), Request.Dig x y) := by
    unfold stepMiner
    simp only [hm]
    rw [if_neg hr]
    rcases ho with ho | ho <;>
      · simp only [ho]
        rw [if_pos hdist]
        simp only [hc]
        rw [if_neg hitem, if_neg hcond, if_pos hpos]
  refine ⟨hmain, ?_⟩
  have hlt : i < s.miners.length := by
    cases hlen : Nat.lt_or_ge i s.miners.length with
    | inl hl => exact hl
    | inr hg =>
        rw [List.get?_eq_none.mpr hg] at hm
        cases hm
  rw [ordersOf_setMinerOrder]
  rw [List.get?_set_eq_of_lt]
  unfold ordersOf
  simpa using hlt

/-- A living miner standing on the positive-ore cell `(1, 2)` of the
`stateA` grid, ordered to dig there. -/
def minerC8 : Miner :=
  { x := 1, y := 2, item := none, uid := 0, alive := true, order := Order.DigAt 1 2 }

/-- The `stateA` grid with `minerC8` as the only robot. -/
def stateC8 : GameState :=
  { stateA with miners := [minerC8] }

/-- C8 witness at `stateC8`: the same-turn `Deliver` switch and
`Dig 1 2` action. -/
theorem arrival_positive_ore_witness :
    stepMiner stateC8 0 (1, 0)
      = some (setMinerOrder stateC8 0 (Order.Deliver 1 2), Request.Dig 1 2) ∧
    (ordersOf (setMinerOrder stateC8 0 (Order.Deliver 1 2))).get? 0
      = some (Order.Deliver 1 2) :=
  arrival_positive_ore_digs_and_delivers stateC8 0 (1, 0) minerC8 1 2 oreCell 1
    (by decide) (by decide) (by decide) (Or.inr rfl) rfl rfl
    (by decide) (by decide) (by decide) (by decide)

/-!
The grid update of a turn: `for y in 0..height` reads one row, and
`for x in 1..width` — the home column `x = 0` is skipped, the comment
in `main` says "we skip x = 0 as it's HQ" — writes ore then hole of the
cell `(x, y)`.  A row is modelled as the function from `x` to the parsed
`(ore, hole)` pair, and the full update as the function from `y` to the
row.
-/

/-- The x-iteration space `1 .. width` of the row loop. -/
def xRange (w : Nat) : List Nat :=
  (List.range (w - 1)).map (fun k => k + 1)

theorem mem_xRange (w x : Nat) (h : x ∈ xRange w) : 1 ≤ x ∧ x < w := by
  obtain ⟨k, hk, rfl⟩ := List.mem_map.mp h
  have := List.mem_range.mp hk
  omega

/-- The inner `for x in 1..width` loop of the grid update. -/
def applyCellsX (y : Nat) (row : Nat → Option Nat × Bool) :
    GameState → List Nat → GameState
  | s, [] => s
  | s, x :: xs =>
      applyCellsX y row ((s.set_ore x y (row x).1).set_hole x y (row x).2) xs

/-- One grid row applied (one iteration of the `for y` loop body). -/
def applyRow (s : GameState) (y : Nat) (row : Nat → Option Nat × Bool) : GameState :=
  applyCellsX y row s (xRange s.width)

/-- The outer `for y in 0..height` loop of the grid update. -/
def applyRowsY (rows : Nat → Nat → Option Nat × Bool) :
    GameState → List Nat → GameState
  | s, [] => s
  | s, y :: ys => applyRowsY rows (applyRow s y (rows y)) ys

/-- The whole per-turn grid update. -/
def applyGrid (s : GameState) (rows : Nat → Nat → Option Nat × Bool) : GameState :=
  applyRowsY rows s (List.range s.height)

/-- One turn's input: scores, grid rows, cooldowns and entity
observations, together with the injected random draws of the turn (one
pair for the radar policy, one per engine iteration; per-observation
pairs ride on the observations). -/
structure Snapshot where
  my_score : Nat
  opponent_score : Nat
  rows : Nat → Nat → Option Nat × Bool
  radar_cooldown : Nat
  trap_cooldown : Nat
  entities : List EntityObs
  assign_rnd : Int × Int
  step_rnds : Nat → Int × Int

/-- The Snapshot Applier: scores, grid rows, cooldowns, then the entity
loop, in the order `main` performs them. -/
def applySnapshot (s : GameState) (t : Snapshot) : Option GameState :=
  applyEntities
    (((applyGrid ((s.set_my_score t.my_score).set_opponent_score t.opponent_score)
        t.rows).set_radar_cooldown t.radar_cooldown).set_trap_cooldown t.trap_cooldown)
    t.entities

/-- One full turn: snapshot application, the radar policy when no robot
currently holds the mission, then the per-robot engine loop. -/
def runTurn (s : GameState) (t : Snapshot) : Option (GameState × List Request) :=
  match applySnapshot s t with
  | none => none
  | some s1 =>
      match (match s1.miner_with_radar with
             | none => s1.assign_radar t.assign_rnd
             | some _ => some s1) with
      | none => none
      | some s2 => stepMiners s2 t.step_rnds

/-- The game loop, state only. -/
def runTurns : GameState → List Snapshot → Option GameState
  | s, [] => some s
  | s, t :: ts =>
      match runTurn s t with
      | none => none
      | some (s', _) => runTurns s' ts

/-!
The radar singleton invariant.  `miner_with_radar` tracks the single
robot on the radar mission; consistency says the orders list carries the
`DeployRadarAt` variant exactly at the tracked index — nowhere when no
robot is tracked.
-/

/-- No order in the list is the radar mission. -/
def noDeploy : List Order → Bool
  | [] => true
  | o :: os => !o.isDeployRadar && noDeploy os

/-- Exactly the order at the given index is the radar mission. -/
def onlyDeployAt : Nat → List Order → Bool
  | _, [] => false
  | 0, o :: os => o.isDeployRadar && noDeploy os
  | Nat.succ j, o :: os => !o.isDeployRadar && onlyDeployAt j os

/-- Number of robots holding the radar-mission order. -/
def countDeploy (os : List Order) : Nat :=
  (os.filter Order.isDeployRadar).length

/-- Consistency of the tracked radar carrier with the orders list. -/
def radarConsistentB (s : GameState) : Bool :=
  match s.miner_with_radar with
  | none => noDeploy (ordersOf s)
  | some i => onlyDeployAt i (ordersOf s)

theorem noDeploy_count (os : List Order) (h : noDeploy os = true) :
    countDeploy os = 0 := by
  induction os with
  | nil => rfl
  | cons o os ih =>
      unfold noDeploy at h
      rw [Bool.and_eq_true] at h
      obtain ⟨h1, h2⟩ := h
      rw [Bool.not_eq_true'] at h1
      unfold countDeploy
      rw [List.filter_cons, h1, if_neg (by simp)]
      exact ih h2

theorem onlyDeployAt_count (os : List Order) :
    ∀ i, onlyDeployAt i os = true → countDeploy os = 1 := by
  induction os with
  | nil => intro i h; cases i <;> simp [onlyDeployAt] at h
  | cons o os ih =>
      intro i h
      cases i with
      | zero =>
          unfold onlyDeployAt at h
          rw [Bool.and_eq_true] at h
          obtain ⟨h1, h2⟩ := h
          unfold countDeploy
          rw [List.filter_cons, h1, if_pos rfl]
          have := noDeploy_count os h2
          unfold countDeploy at this
          simp only [List.length_cons]
          omega
      | succ j =>
          unfold onlyDeployAt at h
          rw [Bool.and_eq_true] at h
          obtain ⟨h1, h2⟩ := h
          rw [Bool.not_eq_true'] at h1
          unfold countDeploy
          rw [List.filter_cons, h1, if_neg (by simp)]
          have := ih j h2
          unfold countDeploy at this
          exact this

theorem noDeploy_get? (os : List Order) (h : noDeploy os = true) :
    ∀ j o, os.get? j = some o → o.isDeployRadar = false := by
  induction os with
  | nil => intro j o hj; cases hj
  | cons o0 os ih =>
      unfold noDeploy at h
      rw [Bool.and_eq_true] at h
      obtain ⟨h1, h2⟩ := h
      rw [Bool.not_eq_true'] at h1
      intro j o hj
      cases j with
      | zero => cases hj; exact h1
      | succ k => exact ih h2 k o hj

theorem noDeploy_set (os : List Order) :
    ∀ (j : Nat) (o : Order), noDeploy os = true → o.isDeployRadar = false →
      noDeploy (os.set j o) = true := by
  induction os with
  | nil => intro j o _ _; cases j <;> rfl
  | cons o0 os ih =>
      intro j o h hdep
      unfold noDeploy at h
      rw [Bool.and_eq_true] at h
      obtain ⟨h1, h2⟩ := h
      cases j with
      | zero =>
          show (!o.isDeployRadar && noDeploy os) = true
          rw [Bool.and_eq_true, Bool.not_eq_true', hdep]
          exact ⟨rfl, h2⟩
      | succ k =>
          show (!o0.isDeployRadar && noDeploy (os.set k o)) = true
          rw [Bool.and_eq_true]
          exact ⟨h1, ih k o h2 hdep⟩

theorem noDeploy_set_deploy (os : List Order) :
    ∀ (j : Nat) (o : Order), noDeploy os = true → j < os.length →
      o.isDeployRadar = true → onlyDeployAt j (os.set j o) = true := by
  induction os with
  | nil => intro j o _ hj _; cases hj
  | cons o0 os ih =>
      intro j o h hj hdep
      unfold noDeploy at h
      rw [Bool.and_eq_true] at h
      obtain ⟨h1, h2⟩ := h
      cases j with
      | zero =>
          show (o.isDeployRadar && noDeploy os) = true
          rw [Bool.and_eq_true, hdep]
          exact ⟨rfl, h2⟩
      | succ k =>
          show (!o0.isDeployRadar && onlyDeployAt k (os.set k o)) = true
          rw [Bool.and_eq_true]
          exact ⟨h1, ih k o h2 (by simpa using hj) hdep⟩

theorem onlyDeployAt_set_self (os : List Order) :
    ∀ (i : Nat) (o : Order), onlyDeployAt i os = true → o.isDeployRadar = false →
      noDeploy (os.set i o) = true := by
  induction os with
  | nil => intro i o h _; cases i <;> simp [onlyDeployAt] at h
  | cons o0 os ih =>
      intro i o h hdep
      cases i with
      | zero =>
          unfold onlyDeployAt at h
          rw [Bool.and_eq_true] at h
          show (!o.isDeployRadar && noDeploy os) = true
          rw [Bool.and_eq_true, Bool.not_eq_true', hdep]
          exact ⟨rfl, h.2⟩
      | succ k =>
          unfold onlyDeployAt at h
          rw [Bool.and_eq_true] at h
          show (!o0.isDeployRadar && noDeploy (os.set k o)) = true
          rw [Bool.and_eq_true]
          exact ⟨h.1, ih k o h.2 hdep⟩

theorem onlyDeployAt_set_ne (os : List Order) :
    ∀ (i j : Nat) (o : Order), onlyDeployAt i os = true → j ≠ i →
      o.isDeployRadar = false → onlyDeployAt i (os.set j o) = true := by
  induction os with
  | nil => intro i j o h _ _; cases i <;> simp [onlyDeployAt] at h
  | cons o0 os ih =>
      intro i j o h hne hdep
      cases i with
      | zero =>
          unfold onlyDeployAt at h
          rw [Bool.and_eq_true] at h
          cases j with
          | zero => exact absurd rfl hne
          | succ k =>
              show (o0.isDeployRadar && noDeploy (os.set k o)) = true
              rw [Bool.and_eq_true]
              exact ⟨h.1, noDeploy_set os k o h.2 hdep⟩
      | succ m =>
          unfold onlyDeployAt at h
          rw [Bool.and_eq_true] at h
          cases j with
          | zero =>
              show (!o.isDeployRadar && onlyDeployAt m os) = true
              rw [Bool.and_eq_true, Bool.not_eq_true', hdep]
              exact ⟨rfl, h.2⟩
          | succ k =>
              show (!o0.isDeployRadar && onlyDeployAt m (os.set k o)) = true
              rw [Bool.and_eq_true]
              exact ⟨h.1, ih m k o h.2 (by omega) hdep⟩

theorem noDeploy_append (os : List Order) (o : Order)
    (h : noDeploy os = true) (hdep : o.isDeployRadar = false) :
    noDeploy (os ++ [o]) = true := by
  induction os with
  | nil =>
      show (!o.isDeployRadar && noDeploy []) = true
      rw [Bool.and_eq_true, Bool.not_eq_true', hdep]
      exact ⟨rfl, rfl⟩
  | cons o0 os ih =>
      unfold noDeploy at h
      rw [Bool.and_eq_true] at h
      show (!o0.isDeployRadar && noDeploy (os ++ [o])) = true
      rw [Bool.and_eq_true]
      exact ⟨h.1, ih h.2⟩

theorem onlyDeployAt_append (os : List Order) (o : Order)
    (hdep : o.isDeployRadar = false) :
    ∀ i, onlyDeployAt i os = true → onlyDeployAt i (os ++ [o]) = true := by
  induction os with
  | nil => intro i h; cases i <;> simp [onlyDeployAt] at h
  | cons o0 os ih =>
      intro i h
      cases i with
      | zero =>
          unfold onlyDeployAt at h
          rw [Bool.and_eq_true] at h
          show (o0.isDeployRadar && noDeploy (os ++ [o])) = true
          rw [Bool.and_eq_true]
          exact ⟨h.1, noDeploy_append os o h.2 hdep⟩
      | succ k =>
          unfold onlyDeployAt at h
          rw [Bool.and_eq_true] at h
          show (!o0.isDeployRadar && onlyDeployAt k (os ++ [o])) = true
          rw [Bool.and_eq_true]
          exact ⟨h.1, ih k h.2⟩

/-- A radar-mission order found after appending a non-mission order was
already present before the append. -/
theorem get?_append_single_not_deploy (os : List Order) (g : Order)
    (hg : g.isDeployRadar = false) (j : Nat) (o : Order)
    (h : (os ++ [g]).get? j = some o) (hdep : o.isDeployRadar = true) :
    os.get? j = some o := by
  by_cases hj : j < os.length
  · rw [List.get?_append hj] at h
    exact h
  · rw [List.get?_append_right (by omega)] at h
    cases hk : j - os.length with
    | zero =>
        rw [hk] at h
        cases h
        rw [hg] at hdep
        cases hdep
    | succ k =>
        rw [hk] at h
        have hnone : ([g] : List Order).get? (k + 1) = none := by simp
        rw [hnone] at h
        cases h

/-!
Frame lemmas: which parts of the state each operation can touch.
-/

theorem kill_frame (s : GameState) (uid : Nat) :
    ordersOf (s.kill uid) = ordersOf s ∧
    (s.kill uid).miner_with_radar = s.miner_with_radar ∧
    (s.kill uid).cells = s.cells ∧
    (s.kill uid).width = s.width ∧ (s.kill uid).height = s.height := by
  unfold GameState.kill
  split
  · exact ⟨map_modifyMiner_keep _ _ _ (fun m => rfl), rfl, rfl, rfl, rfl⟩
  · exact ⟨rfl, rfl, rfl, rfl, rfl⟩
  · exact ⟨rfl, rfl, rfl, rfl, rfl⟩

theorem update_position_frame (s : GameState) (uid : Nat) (px py : Int) :
    ordersOf (s.update_position uid px py) = ordersOf s ∧
    (s.update_position uid px py).miner_with_radar = s.miner_with_radar ∧
    (s.update_position uid px py).cells = s.cells ∧
    (s.update_position uid px py).width = s.width ∧
    (s.update_position uid px py).height = s.height := by
  unfold GameState.update_position
  split
  · exact ⟨map_modifyMiner_keep _ _ _ (fun m => rfl), rfl, rfl, rfl, rfl⟩
  · exact ⟨rfl, rfl, rfl, rfl, rfl⟩
  · exact ⟨rfl, rfl, rfl, rfl, rfl⟩

theorem update_item_frame (s : GameState) (uid : Nat) (item : Option Item) :
    ordersOf (s.update_item uid item) = ordersOf s ∧
    (s.update_item uid item).miner_with_radar = s.miner_with_radar ∧
    (s.update_item uid item).cells = s.cells ∧
    (s.update_item uid item).width = s.width ∧
    (s.update_item uid item).height = s.height := by
  unfold GameState.update_item
  split
  · exact ⟨map_modifyMiner_keep _ _ _ (fun m => rfl), rfl, rfl, rfl, rfl⟩
  · exact ⟨rfl, rfl, rfl, rfl, rfl⟩
  · exact ⟨rfl, rfl, rfl, rfl, rfl⟩

theorem update_radar_position_frame (s : GameState) (uid : Nat) (x y : Int) :
    ordersOf (s.update_radar_position uid x y) = ordersOf s ∧
    (s.update_radar_position uid x y).miner_with_radar = s.miner_with_radar ∧
    (s.update_radar_position uid x y).cells = s.cells ∧
    (s.update_radar_position uid x y).width = s.width ∧
    (s.update_radar_position uid x y).height = s.height := by
  unfold GameState.update_radar_position
  split <;> exact ⟨rfl, rfl, rfl, rfl, rfl⟩

theorem update_trap_position_frame (s : GameState) (uid : Nat) (x y : Int) :
    ordersOf (s.update_trap_position uid x y) = ordersOf s ∧
    (s.update_trap_position uid x y).miner_with_radar = s.miner_with_radar ∧
    (s.update_trap_position uid x y).cells = s.cells ∧
    (s.update_trap_position uid x y).width = s.width ∧
    (s.update_trap_position uid x y).height = s.height := by
  unfold GameState.update_trap_position
  split <;> exact ⟨rfl, rfl, rfl, rfl, rfl⟩

/-- Frame of one entity observation: the tracked radar carrier, the
grid and the dimensions are untouched, and the orders list is either
unchanged or extended by the fresh `GoTo` of a newly registered miner. -/
theorem processEntity_frame (s : GameState) (obs : EntityObs) (s' : GameState)
    (h : processEntity s obs = some s') :
    s'.miner_with_radar = s.miner_with_radar ∧
    s'.cells = s.cells ∧ s'.width = s.width ∧ s'.height = s.height ∧
    (ordersOf s' = ordersOf s ∨
      ordersOf s' = ordersOf s ++ [Order.GoTo obs.rnd.1 obs.rnd.2]) := by
  unfold processEntity at h
  cases hty : EntityType.try_from obs.type_code with
  | error e => simp only [hty] at h; cases h
  | ok ety =>
      simp only [hty] at h
      by_cases hex : s.entity_exists obs.uid = false
      · rw [if_pos hex] at h
        cases ety with
        | Miner =>
            cases h
            refine ⟨rfl, rfl, rfl, rfl, Or.inr ?_⟩
            show (s.miners ++ [_]).map Miner.order = _
            rw [List.map_append]
            rfl
        | OpponentMiner => cases h; exact ⟨rfl, rfl, rfl, rfl, Or.inl rfl⟩
        | BurriedRadar => cases h; exact ⟨rfl, rfl, rfl, rfl, Or.inl rfl⟩
        | BurriedTrap => cases h; exact ⟨rfl, rfl, rfl, rfl, Or.inl rfl⟩
      · rw [if_neg hex] at h
        cases ety with
        | BurriedRadar =>
            cases h
            obtain ⟨ho, hm, hc, hw, hh⟩ := update_radar_position_frame s obs.uid obs.x obs.y
            exact ⟨hm, hc, hw, hh, Or.inl ho⟩
        | BurriedTrap =>
            cases h
            obtain ⟨ho, hm, hc, hw, hh⟩ := update_trap_position_frame s obs.uid obs.x obs.y
            exact ⟨hm, hc, hw, hh, Or.inl ho⟩
        | Miner =>
            cases h
            obtain ⟨ho1, hm1, hc1, hw1, hh1⟩ :
                ordersOf (if obs.x = -1 ∧ obs.y = -1 then s.kill obs.uid else s) = ordersOf s ∧
                (if obs.x = -1 ∧ obs.y = -1 then s.kill obs.uid else s).miner_with_radar
                  = s.miner_with_radar ∧
                (if obs.x = -1 ∧ obs.y = -1 then s.kill obs.uid else s).cells = s.cells ∧
                (if obs.x = -1 ∧ obs.y = -1 then s.kill obs.uid else s).width = s.width ∧
                (if obs.x = -1 ∧ obs.y = -1 then s.kill obs.uid else s).height = s.height := by
              split
              · exact kill_frame s obs.uid
              · exact ⟨rfl, rfl, rfl, rfl, rfl⟩
            obtain ⟨ho2, hm2, hc2, hw2, hh2⟩ := update_position_frame
              (if obs.x = -1 ∧ obs.y = -1 then s.kill obs.uid else s) obs.uid obs.x obs.y
            obtain ⟨ho3, hm3, hc3, hw3, hh3⟩ := update_item_frame
              ((if obs.x = -1 ∧ obs.y = -1 then s.kill obs.uid else s).update_position
                obs.uid obs.x obs.y) obs.uid ((Item.try_from obs.item_code).toOption)
            exact ⟨hm3.trans (hm2.trans hm1), hc3.trans (hc2.trans hc1),
              hw3.trans (hw2.trans hw1), hh3.trans (hh2.trans hh1),
              Or.inl (ho3.trans (ho2.trans ho1))⟩
        | OpponentMiner =>
            cases h
            obtain ⟨ho1, hm1, hc1, hw1, hh1⟩ :
                ordersOf (if obs.x = -1 ∧ obs.y = -1 then s.kill obs.uid else s) = ordersOf s ∧
                (if obs.x = -1 ∧ obs.y = -1 then s.kill obs.uid else s).miner_with_radar
                  = s.miner_with_radar ∧
                (if obs.x = -1 ∧ obs.y = -1 then s.kill obs.uid else s).cells = s.cells ∧
                (if obs.x = -1 ∧ obs.y = -1 then s.kill obs.uid else s).width = s.width ∧
                (if obs.x = -1 ∧ obs.y = -1 then s.kill obs.uid else s).height = s.height := by
              split
              · exact kill_frame s obs.uid
              · exact ⟨rfl, rfl, rfl, rfl, rfl⟩
            obtain ⟨ho2, hm2, hc2, hw2, hh2⟩ := update_position_frame
              (if obs.x = -1 ∧ obs.y = -1 then s.kill obs.uid else s) obs.uid obs.x obs.y
            obtain ⟨ho3, hm3, hc3, hw3, hh3⟩ := update_item_frame
              ((if obs.x = -1 ∧ obs.y = -1 then s.kill obs.uid else s).update_position
                obs.uid obs.x obs.y) obs.uid ((Item.try_from obs.item_code).toOption)
            exact ⟨hm3.trans (hm2.trans hm1), hc3.trans (hc2.trans hc1),
              hw3.trans (hw2.trans hw1), hh3.trans (hh2.trans hh1),
              Or.inl (ho3.trans (ho2.trans ho1))⟩

/-- Frame of the whole entity loop: carrier and grid untouched, the
radar consistency invariant preserved, and no new radar-mission order
ever created (sole-writer direction). -/
theorem applyEntities_frame :
    ∀ (obsL : List EntityObs) (s s' : GameState),
      applyEntities s obsL = some s' →
      s'.miner_with_radar = s.miner_with_radar ∧
      s'.cells = s.cells ∧ s'.width = s.width ∧ s'.height = s.height ∧
      (radarConsistentB s = true → radarConsistentB s' = true) ∧
      (∀ j o, (ordersOf s').get? j = some o → o.isDeployRadar = true →
        (ordersOf s).get? j = some o) := by
  intro obsL
  induction obsL with
  | nil =>
      intro s s' h
      cases h
      exact ⟨rfl, rfl, rfl, rfl, id, fun _ _ hj _ => hj⟩
  | cons obs rest ih =>
      intro s s' h
      unfold applyEntities at h
      cases hp : processEntity s obs with
      | none => simp only [hp] at h; cases h
      | some s1 =>
          simp only [hp] at h
          obtain ⟨hm1, hc1, hw1, hh1, hord1⟩ := processEntity_frame s obs s1 hp
          obtain ⟨hm2, hc2, hw2, hh2, hcons2, hframe2⟩ := ih s1 s' h
          have hcons1 : radarConsistentB s = true → radarConsistentB s1 = true := by
            intro hc
            unfold radarConsistentB at hc ⊢
            rw [hm1]
            cases hmwr : s.miner_with_radar with
            | none =>
                rw [hmwr] at hc
                rcases hord1 with he | he
                · rw [he]; exact hc
                · rw [he]; exact noDeploy_append _ _ hc rfl
            | some i =>
                rw [hmwr] at hc
                rcases hord1 with he | he
                · rw [he]; exact hc
                · rw [he]
                  exact onlyDeployAt_append (ordersOf s)
                    (Order.GoTo obs.rnd.1 obs.rnd.2) rfl i hc
          have hframe1 : ∀ j o, (ordersOf s1).get? j = some o → o.isDeployRadar = true →
              (ordersOf s).get? j = some o := by
            intro j o hj hdep
            rcases hord1 with he | he
            · rw [he] at hj; exact hj
            · rw [he] at hj
              exact get?_append_single_not_deploy (ordersOf s)
                (Order.GoTo obs.rnd.1 obs.rnd.2) rfl j o hj hdep
          exact ⟨hm2.trans hm1, hc2.trans hc1, hw2.trans hw1, hh2.trans hh1,
            fun hc => hcons2 (hcons1 hc),
            fun j o hj hdep => hframe1 j o (hframe2 j o hj hdep) hdep⟩

theorem length_modifyCell (cs : List Cell) :
    ∀ (i : Nat) (f : Cell → Cell), (modifyCell cs i f).length = cs.length := by
  induction cs with
  | nil => intro i f; cases i <;> rfl
  | cons c cs ih =>
      intro i f
      cases i with
      | zero => rfl
      | succ j => simpa [modifyCell] using ih j f

theorem get?_modifyCell_ne (cs : List Cell) :
    ∀ (i j : Nat) (f : Cell → Cell), i ≠ j →
      (modifyCell cs i f).get? j = cs.get? j := by
  induction cs with
  | nil => intro i j f _; cases i <;> rfl
  | cons c cs ih =>
      intro i j f hne
      cases i with
      | zero =>
          cases j with
          | zero => exact absurd rfl hne
          | succ k => rfl
      | succ m =>
          cases j with
          | zero => rfl
          | succ k => simpa [modifyCell] using ih m k f (by omega)

/-- An index written by the row loop (`x` in `1 .. width`) is never the
flat index of a home-column cell. -/
theorem idx_ne_home (w x y y0 : Nat) (h1 : 1 ≤ x) (h2 : x < w) :
    y * w + x ≠ y0 * w := by
  intro h
  rcases Nat.le_total y y0 with hle | hle
  · obtain ⟨d, rfl⟩ : ∃ d, y0 = y + d := ⟨y0 - y, by omega⟩
    rw [Nat.add_mul] at h
    have hx : x = d * w := by omega
    cases d with
    | zero => simp at hx; omega
    | succ d0 =>
        have hw : w ≤ (d0 + 1) * w := by
          have := Nat.mul_le_mul_right w (Nat.succ_le_succ (Nat.zero_le d0))
          simpa using this
        omega
  · obtain ⟨d, rfl⟩ : ∃ d, y = y0 + d := ⟨y - y0, by omega⟩
    rw [Nat.add_mul] at h
    omega

/-- Frame of the inner row loop: only non-home cells of the grid are
written; robots, the radar carrier, the dimensions and the grid size
are untouched. -/
theorem applyCellsX_frame (y : Nat) (row : Nat → Option Nat × Bool) :
    ∀ (xs : List Nat) (s : GameState), (∀ x ∈ xs, 1 ≤ x ∧ x < s.width) →
      (applyCellsX y row s xs).width = s.width ∧
      (applyCellsX y row s xs).height = s.height ∧
      (applyCellsX y row s xs).miners = s.miners ∧
      (applyCellsX y row s xs).miner_with_radar = s.miner_with_radar ∧
      (applyCellsX y row s xs).cells.length = s.cells.length ∧
      (∀ y0, (applyCellsX y row s xs).cells.get? (y0 * s.width)
        = s.cells.get? (y0 * s.width)) := by
  intro xs
  induction xs with
  | nil => intro s _; exact ⟨rfl, rfl, rfl, rfl, rfl, fun _ => rfl⟩
  | cons x xs ih =>
      intro s hx
      obtain ⟨hx1, hx2⟩ := hx x (List.mem_cons_self _ _)
      have hrest : ∀ x' ∈ xs,
          1 ≤ x' ∧ x' < ((s.set_ore x y (row x).1).set_hole x y (row x).2).width :=
        fun x' hx' => hx x' (List.mem_cons_of_mem _ hx')
      obtain ⟨hw, hh, hm, hmwr, hlen, hhome⟩ :=
        ih ((s.set_ore x y (row x).1).set_hole x y (row x).2) hrest
      refine ⟨hw, hh, hm, hmwr, ?_, ?_⟩
      · have hstep : ((s.set_ore x y (row x).1).set_hole x y (row x).2).cells.length
            = s.cells.length := by
          show (modifyCell (modifyCell s.cells _ _) _ _).length = _
          rw [length_modifyCell, length_modifyCell]
        exact hlen.trans hstep
      · intro y0
        have hne := idx_ne_home s.width x y y0 hx1 hx2
        have hstep : ((s.set_ore x y (row x).1).set_hole x y (row x).2).cells.get?
              (y0 * s.width) = s.cells.get? (y0 * s.width) := by
          show (modifyCell (modifyCell s.cells (y * s.width + x) _)
            (y * s.width + x) _).get? (y0 * s.width) = _
          rw [get?_modifyCell_ne _ _ _ _ hne, get?_modifyCell_ne _ _ _ _ hne]
        exact (hhome y0).trans hstep

/-- Frame of the outer row loop, hence of the whole grid update. -/
theorem applyRowsY_frame (rows : Nat → Nat → Option Nat × Bool) :
    ∀ (ys : List Nat) (s : GameState),
      (applyRowsY rows s ys).width = s.width ∧
      (applyRowsY rows s ys).height = s.height ∧
      (applyRowsY rows s ys).miners = s.miners ∧
      (applyRowsY rows s ys).miner_with_radar = s.miner_with_radar ∧
      (applyRowsY rows s ys).cells.length = s.cells.length ∧
      (∀ y0, (applyRowsY rows s ys).cells.get? (y0 * s.width)
        = s.cells.get? (y0 * s.width)) := by
  intro ys
  induction ys with
  | nil => intro s; exact ⟨rfl, rfl, rfl, rfl, rfl, fun _ => rfl⟩
  | cons y ys ih =>
      intro s
      have hbound : ∀ x ∈ xRange s.width, 1 ≤ x ∧ x < s.width :=
        fun x hx => mem_xRange s.width x hx
      obtain ⟨hw1, hh1, hm1, hmwr1, hlen1, hhome1⟩ :=
        applyCellsX_frame y (rows y) (xRange s.width) s hbound
      obtain ⟨hw2, hh2, hm2, hmwr2, hlen2, hhome2⟩ := ih (applyRow s y (rows y))
      have hwrow : (applyRow s y (rows y)).width = s.width := hw1
      refine ⟨hw2.trans hw1, hh2.trans hh1, hm2.trans hm1, hmwr2.trans hmwr1,
        hlen2.trans hlen1, ?_⟩
      intro y0
      have h2 := hhome2 y0
      rw [hwrow] at h2
      exact h2.trans (hhome1 y0)

/-- Frame of `applyGrid`. -/
theorem applyGrid_frame (s : GameState) (rows : Nat → Nat → Option Nat × Bool) :
    (applyGrid s rows).width = s.width ∧
    (applyGrid s rows).height = s.height ∧
    (applyGrid s rows).miners = s.miners ∧
    (applyGrid s rows).miner_with_radar = s.miner_with_radar ∧
    (applyGrid s rows).cells.length = s.cells.length ∧
    (∀ y0, (applyGrid s rows).cells.get? (y0 * s.width)
      = s.cells.get? (y0 * s.width)) :=
  applyRowsY_frame rows (List.range s.height) s

/-- Frame of the whole Snapshot Applier. -/
theorem applySnapshot_frame (s : GameState) (t : Snapshot) (s' : GameState)
    (h : applySnapshot s t = some s') :
    s'.miner_with_radar = s.miner_with_radar ∧
    s'.width = s.width ∧ s'.height = s.height ∧
    s'.cells.length = s.cells.length ∧
    (∀ y0, s'.cells.get? (y0 * s.width) = s.cells.get? (y0 * s.width)) ∧
    (radarConsistentB s = true → radarConsistentB s' = true) ∧
    (∀ j o, (ordersOf s').get? j = some o → o.isDeployRadar = true →
      (ordersOf s).get? j = some o) := by
  unfold applySnapshot at h
  obtain ⟨hmwr, hcells, hw, hh, hcons, hframe⟩ := applyEntities_frame t.entities _ s' h
  obtain ⟨gw, gh, gm, gmwr, glen, ghome⟩ :=
    applyGrid_frame ((s.set_my_score t.my_score).set_opponent_score t.opponent_score) t.rows
  have hgm : ordersOf (((applyGrid ((s.set_my_score t.my_score).set_opponent_score
      t.opponent_score) t.rows).set_radar_cooldown t.radar_cooldown).set_trap_cooldown
      t.trap_cooldown) = ordersOf s := by
    unfold ordersOf
    show (applyGrid _ t.rows).miners.map Miner.order = s.miners.map Miner.order
    rw [gm]
    rfl
  have hgmwr : (((applyGrid ((s.set_my_score t.my_score).set_opponent_score
      t.opponent_score) t.rows).set_radar_cooldown t.radar_cooldown).set_trap_cooldown
      t.trap_cooldown).miner_with_radar = s.miner_with_radar := gmwr
  have hgcons : radarConsistentB s = true →
      radarConsistentB (((applyGrid ((s.set_my_score t.my_score).set_opponent_score
        t.opponent_score) t.rows).set_radar_cooldown t.radar_cooldown).set_trap_cooldown
        t.trap_cooldown) = true := by
    intro hc
    unfold radarConsistentB at hc ⊢
    rw [hgmwr, hgm]
    exact hc
  refine ⟨hmwr.trans hgmwr, hw.trans gw, hh.trans gh, ?_, ?_, ?_, ?_⟩
  · have : s'.cells.length = (applyGrid ((s.set_my_score t.my_score).set_opponent_score
        t.opponent_score) t.rows).cells.length := by rw [hcells]; rfl
    exact this.trans glen
  · intro y0
    have h1 : s'.cells.get? (y0 * s.width)
        = (applyGrid ((s.set_my_score t.my_score).set_opponent_score
            t.opponent_score) t.rows).cells.get? (y0 * s.width) := by rw [hcells]; rfl
    exact h1.trans (ghome y0)
  · intro hc
    exact hcons (hgcons hc)
  · intro j o hj hdep
    have := hframe j o hj hdep
    rw [hgm] at this
    exact this

/-- One engine iteration preserves radar consistency. -/
theorem stepMiner_consistent (s : GameState) (i : Nat) (rnd : Int × Int)
    (s' : GameState) (req : Request)
    (h : stepMiner s i rnd = some (s', req))
    (hc : radarConsistentB s = true) : radarConsistentB s' = true := by
  rcases stepMiner_cases s i rnd s' req h with rfl | ⟨o, hdep, rfl, hne⟩ | ⟨o, hdep, rfl, heq⟩
  · exact hc
  · unfold radarConsistentB at hc ⊢
    rw [setMinerOrder_miner_with_radar, ordersOf_setMinerOrder]
    cases hmwr : s.miner_with_radar with
    | none =>
        rw [hmwr] at hc
        exact noDeploy_set _ i o hc hdep
    | some k =>
        rw [hmwr] at hc
        have hik : i ≠ k := by
          intro he
          subst he
          exact hne hmwr
        exact onlyDeployAt_set_ne _ k i o hc hik hdep
  · unfold radarConsistentB at hc ⊢
    rw [heq] at hc
    show noDeploy (ordersOf (setMinerOrder { s with miner_with_radar := none } i o)) = true
    rw [ordersOf_setMinerOrder]
    exact onlyDeployAt_set_self _ i o hc hdep

/-- One engine iteration never creates a radar-mission order. -/
theorem stepMiner_orders_frame (s : GameState) (i : Nat) (rnd : Int × Int)
    (s' : GameState) (req : Request)
    (h : stepMiner s i rnd = some (s', req)) :
    ∀ j o, (ordersOf s').get? j = some o → o.isDeployRadar = true →
      (ordersOf s).get? j = some o := by
  rcases stepMiner_cases s i rnd s' req h with rfl | ⟨o, hdep, rfl, -⟩ | ⟨o, hdep, rfl, -⟩ <;>
    intro j o' hj hdep'
  · exact hj
  · rw [ordersOf_setMinerOrder] at hj
    by_cases hij : i = j
    · subst hij
      by_cases hlt : i < (ordersOf s).length
      · rw [List.get?_set_eq_of_lt _ hlt] at hj
        cases hj
        rw [hdep] at hdep'
        cases hdep'
      · rw [List.set_eq_of_length_le (by omega)] at hj
        exact hj
    · rw [List.get?_set_ne _ _ hij] at hj
      exact hj
  · rw [ordersOf_setMinerOrder] at hj
    by_cases hij : i = j
    · subst hij
      by_cases hlt : i < (ordersOf { s with miner_with_radar := none }).length
      · rw [List.get?_set_eq_of_lt _ hlt] at hj
        cases hj
        rw [hdep] at hdep'
        cases hdep'
      · rw [List.set_eq_of_length_le (by omega)] at hj
        exact hj
    · rw [List.get?_set_ne _ _ hij] at hj
      exact hj

/-- One engine iteration leaves the grid and dimensions untouched. -/
theorem stepMiner_cwh (s : GameState) (i : Nat) (rnd : Int × Int)
    (s' : GameState) (req : Request)
    (h : stepMiner s i rnd = some (s', req)) :
    s'.cells = s.cells ∧ s'.width = s.width ∧ s'.height = s.height := by
  rcases stepMiner_cases s i rnd s' req h with rfl | ⟨o, -, rfl, -⟩ | ⟨o, -, rfl, -⟩ <;>
    exact ⟨rfl, rfl, rfl⟩

/-- The engine loop preserves consistency, creates no radar-mission
order, and leaves the grid untouched. -/
theorem stepLoop_frame (rnds : Nat → Int × Int) :
    ∀ (fuel : Nat) (s : GameState) (i : Nat) (acc : List Request)
      (s' : GameState) (reqs : List Request),
      stepLoop rnds s i fuel acc = some (s', reqs) →
      (radarConsistentB s = true → radarConsistentB s' = true) ∧
      (∀ j o, (ordersOf s').get? j = some o → o.isDeployRadar = true →
        (ordersOf s).get? j = some o) ∧
      s'.cells = s.cells ∧ s'.width = s.width ∧ s'.height = s.height := by
  intro fuel
  induction fuel with
  | zero =>
      intro s i acc s' reqs h
      cases h
      exact ⟨id, fun _ _ hj _ => hj, rfl, rfl, rfl⟩
  | succ fuel ih =>
      intro s i acc s' reqs h
      unfold stepLoop at h
      cases hstep : stepMiner s i (rnds i) with
      | none => simp only [hstep] at h; cases h
      | some pr =>
          simp only [hstep] at h
          obtain ⟨hcons2, hframe2, hc2, hw2, hh2⟩ := ih pr.1 (i + 1) (pr.2 :: acc) s' reqs h
          have hstep' : stepMiner s i (rnds i) = some (pr.1, pr.2) := by
            rw [hstep]
          obtain ⟨hc1, hw1, hh1⟩ := stepMiner_cwh s i (rnds i) pr.1 pr.2 hstep'
          refine ⟨?_, ?_, hc2.trans hc1, hw2.trans hw1, hh2.trans hh1⟩
          · intro hc
            exact hcons2 (stepMiner_consistent s i (rnds i) pr.1 pr.2 hstep' hc)
          · intro j o hj hdep
            exact stepMiner_orders_frame s i (rnds i) pr.1 pr.2 hstep' j o
              (hframe2 j o hj hdep) hdep

/-- On a nonempty owned-robot list the radar policy always succeeds
(the `found.unwrap()` cannot panic). -/
theorem assign_radar_isSome (s : GameState) (rnd : Int × Int)
    (hne : s.miners ≠ []) : ∃ s', s.assign_radar rnd = some s' := by
  cases hsel : selectMin (fun q => middleDist (s.height / 2) q.2) none
      (enumIdx 0 s.miners) with
  | none =>
      exfalso
      have hn := (selectMin_eq_none_iff _ _).mp hsel
      cases hms : s.miners with
      | nil => exact hne hms
      | cons m ms => rw [hms] at hn; cases hn
  | some p =>
      refine ⟨{ s with
        miner_with_radar := some p.1
        miners := modifyMiner s.miners p.1
          (fun m => { m with order := Order.deploy_radar_to_random rnd }) }, ?_⟩
      unfold GameState.assign_radar findRadarMiner
      rw [hsel]
      rfl

/-- A successful radar assignment on a consistent no-carrier state
yields a consistent state in which exactly one robot holds the radar
mission. -/
theorem assign_radar_exactly_one (s : GameState) (rnd : Int × Int) (s' : GameState)
    (hc : radarConsistentB s = true) (hmwr : s.miner_with_radar = none)
    (h : s.assign_radar rnd = some s') :
    radarConsistentB s' = true ∧ countDeploy (ordersOf s') = 1 := by
  have hnd : noDeploy (ordersOf s) = true := by
    unfold radarConsistentB at hc
    rw [hmwr] at hc
    exact hc
  unfold GameState.assign_radar findRadarMiner at h
  cases hsel : selectMin (fun q => middleDist (s.height / 2) q.2) none
      (enumIdx 0 s.miners) with
  | none => rw [hsel] at h; cases h
  | some p =>
      rw [hsel] at h
      cases h
      have hpmem := selectMin_mem _ _ _ hsel
      have hpget := (mem_enumIdx s.miners 0 p hpmem).2
      rw [Nat.sub_zero] at hpget
      have hlt : p.1 < s.miners.length := by
        by_cases hl : p.1 < s.miners.length
        · exact hl
        · rw [List.get?_eq_none.mpr (by omega)] at hpget
          cases hpget
      have hord : onlyDeployAt p.1
          ((ordersOf s).set p.1 (Order.deploy_radar_to_random rnd)) = true :=
        noDeploy_set_deploy _ p.1 _ hnd (by simpa [ordersOf] using hlt) rfl
      constructor
      · unfold radarConsistentB
        show onlyDeployAt p.1 (ordersOf _) = true
        have heq : ordersOf { s with
            miner_with_radar := some p.1
            miners := modifyMiner s.miners p.1
              (fun m => { m with order := Order.deploy_radar_to_random rnd }) }
            = (ordersOf s).set p.1 (Order.deploy_radar_to_random rnd) :=
          map_modifyMiner_order s.miners p.1 _
        rw [heq]
        exact hord
      · have heq : ordersOf { s with
            miner_with_radar := some p.1
            miners := modifyMiner s.miners p.1
              (fun m => { m with order := Order.deploy_radar_to_random rnd }) }
            = (ordersOf s).set p.1 (Order.deploy_radar_to_random rnd) :=
          map_modifyMiner_order s.miners p.1 _
        rw [heq]
        exact onlyDeployAt_count _ p.1 hord

/-- A successful radar assignment leaves grid and dimensions untouched. -/
theorem assign_radar_cwh (s : GameState) (rnd : Int × Int) (s' : GameState)
    (h : s.assign_radar rnd = some s') :
    s'.cells = s.cells ∧ s'.width = s.width ∧ s'.height = s.height := by
  unfold GameState.assign_radar findRadarMiner at h
  cases hsel : selectMin (fun q => middleDist (s.height / 2) q.2) none
      (enumIdx 0 s.miners) with
  | none => rw [hsel] at h; cases h
  | some p =>
      rw [hsel] at h
      cases h
      exact ⟨rfl, rfl, rfl⟩

/-- C1: the radar-mission singleton.  The consistency invariant (the
`DeployRadarAt` variant appears exactly at the tracked index, nowhere
when none is tracked) holds initially and is preserved by the Snapshot
Applier and by the Order Engine pass; it bounds the number of holders by
one at every point between phases; when no robot holds the mission and a
living robot exists the policy succeeds, and a successful policy run on
a consistent no-holder state leaves exactly one holder; and neither the
Snapshot Applier nor the Order Engine ever creates a `DeployRadarAt`
order (the policy is its sole writer — the engine only clears it at
burial). -/
theorem radar_mission_singleton :
    (∀ w h, radarConsistentB (GameState.new w h) = true) ∧
    (∀ s, radarConsistentB s = true → countDeploy (ordersOf s) ≤ 1) ∧
    (∀ s t s', radarConsistentB s = true → applySnapshot s t = some s' →
      radarConsistentB s' = true ∧
      (∀ j o, (ordersOf s').get? j = some o → o.isDeployRadar = true →
        (ordersOf s).get? j = some o)) ∧
    (∀ (s : GameState) (rnd : Int × Int), s.miner_with_radar = none →
      (∃ m ∈ s.miners, m.alive = true) →
      ∃ s', s.assign_radar rnd = some s') ∧
    (∀ s rnd s', radarConsistentB s = true → s.miner_with_radar = none →
      s.assign_radar rnd = some s' →
      radarConsistentB s' = true ∧ countDeploy (ordersOf s') = 1) ∧
    (∀ s rnds s' reqs, radarConsistentB s = true → stepMiners s rnds = some (s', reqs) →
      radarConsistentB s' = true ∧
      (∀ j o, (ordersOf s').get? j = some o → o.isDeployRadar = true →
        (ordersOf s).get? j = some o)) := by
  refine ⟨?_, ?_, ?_, ?_, ?_, ?_⟩
  · intro w h; rfl
  · intro s hc
    unfold radarConsistentB at hc
    cases hmwr : s.miner_with_radar with
    | none =>
        rw [hmwr] at hc
        rw [noDeploy_count _ hc]
        omega
    | some i =>
        rw [hmwr] at hc
        rw [onlyDeployAt_count _ i hc]
  · intro s t s' hc h
    obtain ⟨-, -, -, -, -, hcons, hframe⟩ := applySnapshot_frame s t s' h
    exact ⟨hcons hc, hframe⟩
  · intro s rnd _ hex
    obtain ⟨m, hm, -⟩ := hex
    exact assign_radar_isSome s rnd (List.ne_nil_of_mem hm)
  · intro s rnd s' hc hmwr h
    exact assign_radar_exactly_one s rnd s' hc hmwr h
  · intro s rnds s' reqs hc h
    obtain ⟨hcons, hframe, -, -, -⟩ :=
      stepLoop_frame rnds s.miners.length s 0 [] s' reqs h
    exact ⟨hcons hc, hframe⟩

/-- The state the radar policy produces from `stateB`. -/
def stateBx : GameState :=
  { stateB with
    miner_with_radar := some 0
    miners := modifyMiner stateB.miners 0
      (fun m => { m with order := Order.DeployRadarAt 1 0 }) }

/-- C1 witness: a concrete policy run on `stateB` (consistent, no
holder, one living robot) yields a consistent state with exactly one
radar-mission holder. -/
theorem radar_mission_singleton_witness :
    radarConsistentB stateBx = true ∧ countDeploy (ordersOf stateBx) = 1 :=
  radar_mission_singleton.2.2.2.2.1 stateB (1, 0) stateBx
    (by decide) (by decide) (by decide)

/-- Home-column preservation through one full turn. -/
theorem runTurn_home (w h : Nat) (s : GameState) (t : Snapshot)
    (s' : GameState) (reqs : List Request)
    (hrt : runTurn s t = some (s', reqs))
    (hw : s.width = w) (hh : s.height = h) (hlen : s.cells.length = w * h)
    (hhome : ∀ y0, y0 < h → s.cells.get? (y0 * w) = some Cell.default) :
    s'.width = w ∧ s'.height = h ∧ s'.cells.length = w * h ∧
    (∀ y0, y0 < h → s'.cells.get? (y0 * w) = some Cell.default) := by
  unfold runTurn at hrt
  cases hs1 : applySnapshot s t with
  | none => simp only [hs1] at hrt; cases hrt
  | some s1 =>
      simp only [hs1] at hrt
      obtain ⟨hmwr1, hw1, hh1, hlen1, hhome1, -, -⟩ := applySnapshot_frame s t s1 hs1
      cases hpol : (match s1.miner_with_radar with
          | none => s1.assign_radar t.assign_rnd
          | some _ => some s1) with
      | none => simp only [hpol] at hrt; cases hrt
      | some s2 =>
          simp only [hpol] at hrt
          have h2 : s2.cells = s1.cells ∧ s2.width = s1.width ∧ s2.height = s1.height := by
            cases hmwr : s1.miner_with_radar with
            | none =>
                rw [hmwr] at hpol
                exact assign_radar_cwh s1 t.assign_rnd s2 hpol
            | some k =>
                rw [hmwr] at hpol
                cases hpol
                exact ⟨rfl, rfl, rfl⟩
          obtain ⟨hc2, hw2, hh2⟩ := h2
          obtain ⟨-, -, hc3, hw3, hh3⟩ :=
            stepLoop_frame t.step_rnds s2.miners.length s2 0 [] s' reqs hrt
          have hW : s'.width = w := by rw [hw3, hw2, hw1, hw]
          have hH : s'.height = h := by rw [hh3, hh2, hh1, hh]
          have hcells : s'.cells = s1.cells := by rw [hc3, hc2]
          refine ⟨hW, hH, by rw [hcells, hlen1, hlen], ?_⟩
          intro y0 hy0
          have h1 := hhome1 y0
          rw [hw] at h1
          rw [hcells, h1]
          exact hhome y0 hy0

/-- Home-column preservation through the whole game loop. -/
theorem runTurns_home (w h : Nat) :
    ∀ (ts : List Snapshot) (s : GameState),
      s.width = w → s.height = h → s.cells.length = w * h →
      (∀ y0, y0 < h → s.cells.get? (y0 * w) = some Cell.default) →
      ∀ s', runTurns s ts = some s' →
        s'.width = w ∧ s'.height = h ∧ s'.cells.length = w * h ∧
        (∀ y0, y0 < h → s'.cells.get? (y0 * w) = some Cell.default) := by
  intro ts
  induction ts with
  | nil =>
      intro s h1 h2 h3 h4 s' hrun
      cases hrun
      exact ⟨h1, h2, h3, h4⟩
  | cons t ts ih =>
      intro s h1 h2 h3 h4 s' hrun
      unfold runTurns at hrun
      cases hrt : runTurn s t with
      | none => simp only [hrt] at hrun; cases hrun
      | some pr =>
          simp only [hrt] at hrun
          have hrt' : runTurn s t = some (pr.1, pr.2) := by rw [hrt]
          obtain ⟨k1, k2, k3, k4⟩ := runTurn_home w h s t pr.1 pr.2 hrt' h1 h2 h3 h4
          exact ih pr.1 k1 k2 k3 k4 s' hrun

/-- C9: starting from the freshly constructed state, no number of turns
— whatever the grid rows report — ever writes a home-column cell
(`x = 0`): it keeps its initial unknown-ore, no-hole state for the whole
process lifetime.  (The row loop starts at `x = 1`; nothing else writes
the grid.) -/
theorem home_column_never_written (w h : Nat) (hw0 : 0 < w)
    (ts : List Snapshot) (s' : GameState)
    (hrun : runTurns (GameState.new w h) ts = some s') :
    ∀ y0, y0 < h → s'.cell 0 (y0 : Int) = some Cell.default := by
  have hbase : ∀ y0, y0 < h →
      (GameState.new w h).cells.get? (y0 * w) = some Cell.default := by
    intro y0 hy0
    show (List.replicate (w * h) Cell.default).get? (y0 * w) = some Cell.default
    have hidx : y0 * w < w * h := by
      have h1 : y0 * w < (y0 + 1) * w := by rw [Nat.succ_mul]; omega
      have h2 : (y0 + 1) * w ≤ h * w := Nat.mul_le_mul_right w hy0
      have h3 : h * w = w * h := Nat.mul_comm _ _
      omega
    simp [List.getElem?_replicate, hidx]
  obtain ⟨hW, hH, hL, hHome⟩ := runTurns_home w h ts (GameState.new w h) rfl rfl
    (by simp [GameState.new]) hbase s' hrun
  intro y0 hy0
  unfold GameState.cell
  rw [if_neg (by omega)]
  have hcast : ((y0 : Int)).toNat = y0 := by omega
  rw [hcast, hW]
  simpa using hHome y0 hy0

/-- One turn's input: full rows reporting ore everywhere, one new owned
robot, and the injected random draws. -/
def snapC9 : Snapshot :=
  { my_score := 0
    opponent_score := 0
    rows := fun _ _ => (some 5, true)
    radar_cooldown := 0
    trap_cooldown := 0
    entities := [{ uid := 0, type_code := 0, x := 1, y := 1, item_code := -1, rnd := (2, 1) }]
    assign_rnd := (2, 2)
    step_rnds := fun _ => (1, 0) }

/-- The state after running `snapC9` from a fresh `3 × 3` game. -/
def stateC9 : GameState :=
  (runTurns (GameState.new 3 3) [snapC9]).getD (GameState.new 3 3)

/-- C9 witness: after a full concrete turn that reports ore on every
row, the home-column cell `(0, 1)` still reads unknown ore and no
hole. -/
theorem home_column_never_written_witness :
    stateC9.cell 0 1 = some Cell.default :=
  home_column_never_written 3 3 (by decide) [snapC9] stateC9 (by decide) 1 (by decide)

end Geek
